import Mathlib

/-!
Plugin loader and hook registry (`plugin.cpp`).

A shallow embedding of the hook registry (`plugin_hooks`, `HookRegistrar`,
`DEFINE_PLUGIN_API_HOOK`), of `load_hook`, `load_single_plugin` and
`load_plugins`, followed by the properties proved about them.

Conventions of the embedding.

* C `int` values are `Int`; none of the counters can overflow (they are bounded by
  64, by 8 or by an extension point's limit), so no wrap-around is modelled.
* A raw pointer to code (`void*`) is a `Nat`, `0` being `nullptr`.
* `PluginHookData` holds two pointers, `count` and `arr`, to the static counter and
  the static array that `DEFINE_PLUGIN_API_HOOK` generates for one extension point.
  Each table entry is the only owner of that storage, so the embedding keeps the
  pointed-to counter and array inside the entry.
* An access outside an array is undefined behaviour in C; here the function
  returns `Except.error` with the kind of access that went wrong.
* Effects are kept in the state: the lines written to `stderr`, the paths given to
  `dlopen`, and the `FirmwareAPI` values handed to `describe_hooks`.
* The outside world is a parameter: `getRootDir`, the entries `readdir` returns, and
  what `dlopen`, `dlsym` and the plugin's `describe_hooks` give back. The array a
  plugin returns is a list; reading `hooks[i]` past its end is a fault of its own kind.
* File names and paths are strings of characters, `tolower` is ASCII; the size of the
  path `sprintf` builds in `dir_path` is counted in bytes (UTF-8).
-/

namespace Plugin

deriving instance DecidableEq for Except

/-! ## Constants -/

def MAX_PLUGINS : Int := 8

def PLUGIN_API_VERSION : Int := 1

def MAX_PLUGIN_HOOKS : Int := 64

/-- Value of `DT_REG` in `<dirent.h>` (Linux). -/
def DT_REG : Nat := 8

/-- Value of `PATH_MAX` in `<limits.h>` (Linux). -/
def PATH_MAX : Nat := 4096

/-! ## Data model -/

/-- A raw code pointer; `0` is `nullptr`. -/
abbrev Ptr := Nat

/-- What a function-pointer field of `FirmwareAPI` is bound to: one of the ten host
wrappers, or some other address (a plugin can store anything through the pointer it
is given). -/
inductive FnPtr
  | firm_api_scheduler_yield
  | firm_api_OsdSetTitle
  | firm_api_OsdClear
  | firm_api_OsdEnable
  | firm_api_OsdGetSize
  | firm_api_OsdWrite
  | firm_api_OsdUpdate
  | firm_api_SelectFile
  | firm_api_FileCreatePath
  | firm_api_MakeFile
  | foreign (addr : Nat)
deriving DecidableEq, Repr

/-- The `struct FirmwareAPI`; the default member initialisers are the field defaults,
so `FirmwareAPI{}` of the source is `({} : FirmwareAPI)`. -/
structure FirmwareAPI where
  version : Int := PLUGIN_API_VERSION
  scheduler_yield : FnPtr := FnPtr.firm_api_scheduler_yield
  OsdSetTitle : FnPtr := FnPtr.firm_api_OsdSetTitle
  OsdClear : FnPtr := FnPtr.firm_api_OsdClear
  OsdEnable : FnPtr := FnPtr.firm_api_OsdEnable
  OsdGetSize : FnPtr := FnPtr.firm_api_OsdGetSize
  OsdWrite : FnPtr := FnPtr.firm_api_OsdWrite
  OsdUpdate : FnPtr := FnPtr.firm_api_OsdUpdate
  SelectFile : FnPtr := FnPtr.firm_api_SelectFile
  FileCreatePath : FnPtr := FnPtr.firm_api_FileCreatePath
  MakeFile : FnPtr := FnPtr.firm_api_MakeFile
deriving DecidableEq, Repr

/-- The `struct PluginHookData`, with the storage behind its two pointers:
`name = none` is `nullptr`, `count` is the value of `*count`, `arr` is the backing
array (`max_instances` slots in a declared entry, no storage in a zeroed one). -/
structure PluginHookData where
  name : Option String
  count : Int
  arr : List Ptr
  limit : Int
deriving DecidableEq, Repr

/-- The `struct HookPair`. -/
structure HookPair where
  id : Int
  ptr : Ptr
deriving DecidableEq, Repr

/-- The kinds of out-of-bounds access the code could make. -/
inductive Fault
  /-- Access `plugin_hooks[id]` outside the 64-entry table. -/
  | table_oob
  /-- Access `arr[i]` outside the backing array of an extension point. -/
  | arr_oob
  /-- Access `hooks[i]` outside the array the plugin returned. -/
  | hooks_oob
  /-- Write of `sprintf` past the end of `char dir_path[2100]`. -/
  | dir_path_oob
deriving DecidableEq, Repr

/-- One line written to `stderr`, by format string, with the formatted values. -/
inductive Diag
  /-- Line "hoook id# %d not registered." -/
  | hook_not_registered (id : Int)
  /-- Line "%s() registered too many instances: %d" -/
  | too_many_instances (name : String) (count : Int)
  /-- Line "Failed to load plugin: %s" -/
  | failed_to_load (dlerror : String)
  /-- Line "Plugin %s| describe_hooks() not found: %s" -/
  | describe_hooks_not_found (path : String) (dlerror : String)
  /-- Line "Plugin %s| describe_hooks() did not return a valid hooks array: %d" -/
  | no_valid_hooks_array (path : String) (hooks_count : Int)
  /-- Line "Plugin %s| Hooks array entry '%d' did contain incorrect value: %d" -/
  | incorrect_value (path : String) (i : Int) (id : Int)
  /-- Line "Plugin %s loaded with %d hooks." -/
  | loaded_with (path : String) (loaded : Int)
  /-- Line "Loading plugins." -/
  | loading_plugins
  /-- Line "Couldn't load plugins because couldn't open dir: %s" -/
  | couldnt_open_dir (dir_path : String)
deriving DecidableEq, Repr

/-- The process state the loader works on. -/
structure Host where
  /-- The global table `plugin_hooks[MAX_PLUGIN_HOOKS]`. -/
  plugin_hooks : List PluginHookData
  /-- Lines written to `stderr`, oldest first. -/
  stderr : List Diag
  /-- Paths passed to `dlopen`, in call order. -/
  dlopened : List String
  /-- The `FirmwareAPI` value each `describe_hooks` call was given, in call order. -/
  api_given : List FirmwareAPI
deriving DecidableEq, Repr

/-- What `describe_hooks` leaves behind: the returned pointer (`none` is `nullptr`,
otherwise the array it points to), the value of `*hooks_count` after the call (it is
`0` before), and the contents of `*api` after the call. -/
structure DescribeResult where
  hooks : Option (List HookPair)
  hooks_count : Int
  api_after : FirmwareAPI := {}

/-- What `dlopen` and `dlsym` find at a path. -/
inductive PluginFile
  /-- Case `dlopen` returns `nullptr`; `dlerror` is its message. -/
  | open_fails (dlerror : String)
  /-- Case `dlsym(plugin, "describe_hooks")` returns `nullptr`. -/
  | no_describe_hooks (dlerror : String)
  /-- The library exports `describe_hooks`. -/
  | exports (describe_hooks : FirmwareAPI → DescribeResult)

/-- The fields of `struct dirent` the loader reads. -/
structure dirent where
  d_type : Nat
  d_name : String
deriving DecidableEq, Repr

/-! ## Static initialisation -/

/-- The zero-initialised global `plugin_hooks`. -/
def plugin_hooks_zero : List PluginHookData :=
  List.replicate 64 { name := none, count := 0, arr := [], limit := 0 }

/-- The constructor `HookRegistrar::HookRegistrar`. -/
def HookRegistrar (plugin_hooks : List PluginHookData) (id : Int) (name : String)
    (count : Int) (arr : List Ptr) (limit : Int) : Except Fault (List PluginHookData) :=
  if id < MAX_PLUGIN_HOOKS then
    if 0 ≤ id ∧ id.toNat < plugin_hooks.length then
      Except.ok (plugin_hooks.set id.toNat
        { name := some name, count := count, arr := arr, limit := limit })
    else Except.error Fault.table_oob
  else Except.ok plugin_hooks

/-- The static objects of `DEFINE_PLUGIN_API_HOOK(id, hook_name, max_instances, ..)`:
an array of `max_instances` null pointers, a zero counter, and the registrar. -/
def DEFINE_PLUGIN_API_HOOK.statics (plugin_hooks : List PluginHookData) (id : Int)
    (hook_name : String) (max_instances : Nat) : Except Fault (List PluginHookData) :=
  HookRegistrar plugin_hooks id hook_name 0 (List.replicate max_instances 0) max_instances

/-- Dynamic initialisation of the translation unit: the two registrars, in order. -/
def static_init : Except Fault (List PluginHookData) := do
  let t ← DEFINE_PLUGIN_API_HOOK.statics plugin_hooks_zero 0 "plugin_handle_mister_cmd" 5
  DEFINE_PLUGIN_API_HOOK.statics t 1 "plugin_test" 1

/-- The table once the static initialisers have run. -/
def plugin_hooks_initial : List PluginHookData :=
  { name := some "plugin_handle_mister_cmd", count := 0, arr := [0, 0, 0, 0, 0], limit := 5 } ::
  { name := some "plugin_test", count := 0, arr := [0], limit := 1 } ::
  List.replicate 62 { name := none, count := 0, arr := [], limit := 0 }

/-- The process state when `main` starts: initialised table, nothing logged or opened. -/
def Host.initial : Host :=
  { plugin_hooks := plugin_hooks_initial, stderr := [], dlopened := [], api_given := [] }

/-! ## The loader -/

/-- The function `load_hook`. -/
def load_hook (s : Host) (hook : HookPair) : Except Fault Host :=
  if hook.id < 0 ∨ MAX_PLUGIN_HOOKS ≤ hook.id then Except.error Fault.table_oob else
  match s.plugin_hooks[hook.id.toNat]? with
  | none => Except.error Fault.table_oob
  | some hook_data =>
    match hook_data.name with
    | none =>
      Except.ok { s with stderr := s.stderr ++ [Diag.hook_not_registered hook.id] }
    | some name =>
      if hook_data.count ≥ hook_data.limit then
        Except.ok { s with stderr := s.stderr ++ [Diag.too_many_instances name hook_data.count] }
      else if 0 ≤ hook_data.count ∧ hook_data.count.toNat < hook_data.arr.length then
        let written : PluginHookData :=
          { hook_data with
            arr := hook_data.arr.set hook_data.count.toNat hook.ptr,
            count := hook_data.count + 1 }
        Except.ok { s with plugin_hooks := s.plugin_hooks.set hook.id.toNat written }
      else Except.error Fault.arr_oob

/-- The loop of `load_single_plugin` over `hooks[i]`, with `remaining = hooks_count - i`
iterations still to run and the running value of `loaded`. -/
def load_single_plugin.loop (path : String) (hooks : List HookPair) :
    Nat → Nat → Int → Host → Except Fault (Host × Int)
  | 0, _, loaded, s => Except.ok (s, loaded)
  | remaining + 1, i, loaded, s =>
    match hooks[i]? with
    | none => Except.error Fault.hooks_oob
    | some hook =>
      if hook.id < 0 ∨ hook.id ≥ MAX_PLUGIN_HOOKS then
        load_single_plugin.loop path hooks remaining (i + 1) loaded
          { s with stderr := s.stderr ++ [Diag.incorrect_value path i hook.id] }
      else
        match load_hook s hook with
        | Except.error f => Except.error f
        | Except.ok s' => load_single_plugin.loop path hooks remaining (i + 1) (loaded + 1) s'

/-- The part of `load_single_plugin` that follows the call of `describe_hooks`: the
check of the returned pointer and count, the loop, and the final log line. -/
def load_single_plugin.register (path : String) (hooks : Option (List HookPair))
    (hooks_count : Int) (s : Host) : Except Fault Host :=
  match hooks with
  | none =>
    Except.ok { s with stderr := s.stderr ++ [Diag.no_valid_hooks_array path hooks_count] }
  | some arr =>
    if hooks_count ≤ 0 ∨ hooks_count > MAX_PLUGIN_HOOKS then
      Except.ok { s with stderr := s.stderr ++ [Diag.no_valid_hooks_array path hooks_count] }
    else
      match load_single_plugin.loop path arr hooks_count.toNat 0 0 s with
      | Except.error f => Except.error f
      | Except.ok (s', loaded) =>
        Except.ok { s' with stderr := s'.stderr ++ [Diag.loaded_with path loaded] }

/-- The function `load_single_plugin`; `dl` tells what `dlopen` and `dlsym` find at a
path. -/
def load_single_plugin (dl : String → PluginFile) (s : Host) (path : String) :
    Except Fault Host :=
  let s1 : Host := { s with dlopened := s.dlopened ++ [path] }
  match dl path with
  | PluginFile.open_fails err =>
    Except.ok { s1 with stderr := s1.stderr ++ [Diag.failed_to_load err] }
  | PluginFile.no_describe_hooks err =>
    Except.ok { s1 with stderr := s1.stderr ++ [Diag.describe_hooks_not_found path err] }
  | PluginFile.exports describe_hooks =>
    let api : FirmwareAPI := {}
    let r := describe_hooks api
    load_single_plugin.register path r.hooks r.hooks_count
      { s1 with api_given := s1.api_given ++ [api] }

/-- ASCII `tolower` is `Char.toLower`. The function `strncasecmp` on NUL-free strings:
compares at most `n` characters without regard to case; the sign of the result is
that of the first difference. -/
def strncasecmp : List Char → List Char → Nat → Int
  | _, _, 0 => 0
  | [], [], _ + 1 => 0
  | [], b :: _, _ + 1 => - (b.toLower.toNat : Int)
  | a :: _, [], _ + 1 => (a.toLower.toNat : Int)
  | a :: as, b :: bs, n + 1 =>
    if a.toLower = b.toLower then strncasecmp as bs n
    else (a.toLower.toNat : Int) - (b.toLower.toNat : Int)

/-- Result of `snprintf(full_path, sizeof(full_path), "%s/%s", dir_path, d_name)`: the
joined path, cut to `PATH_MAX - 1` characters. -/
def full_path (dir_path d_name : String) : String :=
  String.mk ((dir_path ++ "/" ++ d_name).toList.take (PATH_MAX - 1))

/-- The `while` loop of `load_plugins`: the list is what `readdir` still has to
return, `loaded` the local counter. -/
def load_plugins.scan (dl : String → PluginFile) (dir_path : String) :
    List dirent → Int → Host → Except Fault Host
  | [], _, s => Except.ok s
  | de :: rest, loaded, s =>
    if loaded < MAX_PLUGINS then
      if de.d_type ≠ DT_REG ∨ de.d_name.toList.head? = some '.' ∨ '/' ∈ de.d_name.toList then
        load_plugins.scan dl dir_path rest loaded s
      else
        let len := de.d_name.length
        if len > 3 ∧ strncasecmp (de.d_name.toList.drop (len - 3)) ".so".toList 3 = 0 then
          match load_single_plugin dl s (full_path dir_path de.d_name) with
          | Except.error f => Except.error f
          | Except.ok s' => load_plugins.scan dl dir_path rest (loaded + 1) s'
        else load_plugins.scan dl dir_path rest loaded s
    else Except.ok s

/-- The function `load_plugins`. `getRootDir` is the string the external `getRootDir()`
returns, `d` what `opendir(dir_path)` gives: `none` for `NULL`, otherwise the entries
`readdir` returns, in order. The call `sprintf(dir_path, "%s/linux/plugins", ..)` writes
the bytes of the path and a final NUL into `char dir_path[2100]`: a path of 2100 bytes
or more runs past the buffer. -/
def load_plugins (getRootDir : String) (d : Option (List dirent)) (dl : String → PluginFile)
    (s : Host) : Except Fault Host :=
  let s1 : Host := { s with stderr := s.stderr ++ [Diag.loading_plugins] }
  let dir_path := getRootDir ++ "/linux/plugins"
  if 2100 ≤ dir_path.utf8ByteSize then Except.error Fault.dir_path_oob
  else
    match d with
    | none => Except.ok { s1 with stderr := s1.stderr ++ [Diag.couldnt_open_dir dir_path] }
    | some entries => load_plugins.scan dl dir_path entries 0 s1

/-! ## Generated invokers -/

/-- The `for` loop of the function generated by `DEFINE_PLUGIN_API_HOOK`: calls
`arr[i]` with the arguments, `remaining = count - i` iterations to go; the result is
the list of calls made, oldest first. -/
def DEFINE_PLUGIN_API_HOOK.calls {α : Type} (arr : List Ptr) (args : α) :
    Nat → Nat → List (Ptr × α) → Except Fault (List (Ptr × α))
  | 0, _, made => Except.ok made
  | remaining + 1, i, made =>
    match arr[i]? with
    | none => Except.error Fault.arr_oob
    | some f => DEFINE_PLUGIN_API_HOOK.calls arr args remaining (i + 1) (made ++ [(f, args)])

/-- The function `hook_name` generated by `DEFINE_PLUGIN_API_HOOK(id, hook_name, ..)`:
the calls it makes and the value it returns. Its array and counter are the storage of
table entry `id`. -/
def DEFINE_PLUGIN_API_HOOK.invoker {α : Type} (id : Nat) (s : Host) (args : α) :
    Except Fault (List (Ptr × α) × Int) :=
  match s.plugin_hooks[id]? with
  | none => Except.error Fault.table_oob
  | some point =>
    match DEFINE_PLUGIN_API_HOOK.calls point.arr args point.count.toNat 0 [] with
    | Except.error f => Except.error f
    | Except.ok made => Except.ok (made, point.count)

/-- Invoker `int plugin_handle_mister_cmd(char* cmd)`; `cmd` is the pointer value. -/
def plugin_handle_mister_cmd (s : Host) (cmd : Ptr) : Except Fault (List (Ptr × Ptr) × Int) :=
  DEFINE_PLUGIN_API_HOOK.invoker 0 s cmd

/-- Invoker `int plugin_test()`. -/
def plugin_test (s : Host) : Except Fault (List (Ptr × Unit) × Int) :=
  DEFINE_PLUGIN_API_HOOK.invoker 1 s ()

/-! ## Views, well-formedness and specification functions -/

/-- The callbacks registered at an extension point: `arr[0 .. count)`. -/
def PluginHookData.callbacks (e : PluginHookData) : List Ptr :=
  e.arr.take e.count.toNat

/-- A declared entry is well formed when its counter lies in `[0, limit]` and its
backing array has `limit` slots, as `DEFINE_PLUGIN_API_HOOK` lays it out. -/
def PluginHookData.Valid (e : PluginHookData) : Prop :=
  e.name ≠ none → 0 ≤ e.count ∧ e.count ≤ e.limit ∧ (e.arr.length : Int) = e.limit

instance (e : PluginHookData) : Decidable e.Valid := by
  unfold PluginHookData.Valid; infer_instance

/-- The table has its 64 entries and each of them is well formed. -/
def TableValid (t : List PluginHookData) : Prop :=
  t.length = 64 ∧ ∀ e ∈ t, e.Valid

instance (t : List PluginHookData) : Decidable (TableValid t) := by
  unfold TableValid; infer_instance

/-- The table of the state has its 64 entries and each of them is well formed. -/
def Host.Valid (s : Host) : Prop := TableValid s.plugin_hooks

instance (s : Host) : Decidable s.Valid := by
  unfold Host.Valid; infer_instance

/-- Registering one callback at one entry, as `load_hook` does once it has found the
entry: nothing for an undeclared or a full entry, otherwise a write at `arr[count]`. -/
def PluginHookData.offer (e : PluginHookData) (ptr : Ptr) : PluginHookData :=
  if e.name = none then e
  else if e.count ≥ e.limit then e
  else { e with arr := e.arr.set e.count.toNat ptr, count := e.count + 1 }

/-- The table part of a result. -/
def table (r : Except Fault Host) : Except Fault (List PluginHookData) :=
  match r with
  | Except.error f => Except.error f
  | Except.ok s => Except.ok s.plugin_hooks

/-- The table part of `load_hook`, run on a state holding only the table. -/
def hook_table (t : List PluginHookData) (hook : HookPair) : Except Fault (List PluginHookData) :=
  table (load_hook { plugin_hooks := t, stderr := [], dlopened := [], api_given := [] } hook)

/-- The test `load_single_plugin` makes on a hook id before calling `load_hook`. -/
def HookPair.in_range (h : HookPair) : Prop := 0 ≤ h.id ∧ h.id < MAX_PLUGIN_HOOKS

instance (h : HookPair) : Decidable h.in_range := by
  unfold HookPair.in_range; infer_instance

/-- Successive `load_hook` calls, on the table alone. -/
def register_all : List PluginHookData → List HookPair → Except Fault (List PluginHookData)
  | t, [] => Except.ok t
  | t, h :: rest =>
    match hook_table t h with
    | Except.error f => Except.error f
    | Except.ok t' => register_all t' rest

/-- The table and counter part of the result of the loop. -/
def loop_view (r : Except Fault (Host × Int)) : Except Fault (List PluginHookData × Int) :=
  match r with
  | Except.error f => Except.error f
  | Except.ok (s, loaded) => Except.ok (s.plugin_hooks, loaded)

/-- The hooks of a returned array that reach `load_hook`: none when the result is
rejected, otherwise the first `hooks_count` entries whose id is in range. -/
def offers_of (hooks : Option (List HookPair)) (hooks_count : Int) : List HookPair :=
  match hooks with
  | none => []
  | some arr =>
    if hooks_count ≤ 0 ∨ hooks_count > MAX_PLUGIN_HOOKS then []
    else (arr.take hooks_count.toNat).filter (fun h => decide h.in_range)

/-- The returned array really has the `hooks_count` entries the loop reads. -/
def in_bounds (hooks : Option (List HookPair)) (hooks_count : Int) : Prop :=
  match hooks with
  | none => True
  | some arr =>
    (hooks_count ≤ 0 ∨ hooks_count > MAX_PLUGIN_HOOKS) ∨ hooks_count.toNat ≤ arr.length

instance (hooks : Option (List HookPair)) (hooks_count : Int) :
    Decidable (in_bounds hooks hooks_count) := by
  unfold in_bounds; split <;> infer_instance

/-- The hooks a plugin file offers to `load_hook` when it is loaded. -/
def PluginFile.offers : PluginFile → List HookPair
  | PluginFile.exports describe_hooks =>
    offers_of (describe_hooks {}).hooks (describe_hooks {}).hooks_count
  | _ => []

/-- The file's `describe_hooks`, if any, returns an array as long as it says. -/
def PluginFile.InBounds : PluginFile → Prop
  | PluginFile.exports describe_hooks =>
    in_bounds (describe_hooks {}).hooks (describe_hooks {}).hooks_count
  | _ => True

instance (p : PluginFile) : Decidable p.InBounds := by
  unfold PluginFile.InBounds; split <;> infer_instance

/-- Registering a returned array, on the table alone. -/
def register_table (t : List PluginHookData) (hooks : Option (List HookPair))
    (hooks_count : Int) : Except Fault (List PluginHookData) :=
  match register_all t (offers_of hooks hooks_count) with
  | Except.error f => Except.error f
  | Except.ok t' =>
    if in_bounds hooks hooks_count then Except.ok t' else Except.error Fault.hooks_oob

/-- Loading one plugin file, on the table alone. -/
def file_table (t : List PluginHookData) : PluginFile → Except Fault (List PluginHookData)
  | PluginFile.exports describe_hooks =>
    register_table t (describe_hooks {}).hooks (describe_hooks {}).hooks_count
  | _ => Except.ok t

/-- The test of `load_plugins` on a directory entry: not skipped by the first `if`,
and accepted by the second. -/
def dirent.candidate (de : dirent) : Prop :=
  ¬ (de.d_type ≠ DT_REG ∨ de.d_name.toList.head? = some '.' ∨ '/' ∈ de.d_name.toList) ∧
  (de.d_name.length > 3 ∧
    strncasecmp (de.d_name.toList.drop (de.d_name.length - 3)) ".so".toList 3 = 0)

instance (de : dirent) : Decidable de.candidate := by
  unfold dirent.candidate; infer_instance

/-- The candidate files of a directory listing, in enumeration order. -/
def candidates (entries : List dirent) : List dirent :=
  entries.filter (fun de => decide de.candidate)

/-- Successive `load_single_plugin` calls on a list of paths. -/
def load_all (dl : String → PluginFile) : Host → List String → Except Fault Host
  | s, [] => Except.ok s
  | s, path :: rest =>
    match load_single_plugin dl s path with
    | Except.error f => Except.error f
    | Except.ok s' => load_all dl s' rest

/-- Loading a list of plugin files, on the table alone. -/
def files_table : List PluginHookData → List PluginFile → Except Fault (List PluginHookData)
  | t, [] => Except.ok t
  | t, p :: rest =>
    match file_table t p with
    | Except.error f => Except.error f
    | Except.ok t' => files_table t' rest

/-- Registering a list of callbacks, one after the other, at one entry. -/
def PluginHookData.offer_all (e : PluginHookData) (ptrs : List Ptr) : PluginHookData :=
  ptrs.foldl PluginHookData.offer e

/-- The callbacks a list of hooks holds for one id, in list order. -/
def ptrs_for (id : Int) (L : List HookPair) : List Ptr :=
  (L.filter (fun h => decide (h.id = id))).map HookPair.ptr

/-- The hooks a list of plugin files offers to `load_hook`, file after file. -/
def all_offers : List PluginFile → List HookPair
  | [] => []
  | p :: rest => p.offers ++ all_offers rest

/-- The declared part of the table: the name and the limit of each entry. -/
def signature (t : List PluginHookData) : List (Option String × Int) :=
  t.map (fun e => (e.name, e.limit))

/-- The invariant of the table: well formed, with the names and limits the static
initialisers gave it. -/
def Inv (t : List PluginHookData) : Prop :=
  TableValid t ∧ signature t = signature plugin_hooks_initial

/-- One call into the loader. -/
inductive Op
  /-- A call `load_hook(hook)`. -/
  | hook (h : HookPair)
  /-- A call `load_single_plugin(path)`, `dl` being what the dynamic loader finds. -/
  | single (dl : String → PluginFile) (path : String)
  /-- A call `load_plugins()`, with the root directory, the listing and the loader. -/
  | plugins (getRootDir : String) (d : Option (List dirent)) (dl : String → PluginFile)

/-- Running one call. -/
def Op.run (s : Host) : Op → Except Fault Host
  | Op.hook h => load_hook s h
  | Op.single dl path => load_single_plugin dl s path
  | Op.plugins getRootDir d dl => load_plugins getRootDir d dl s

/-- Running a sequence of calls, stopping at the first fault. -/
def run_ops : Host → List Op → Except Fault Host
  | s, [] => Except.ok s
  | s, op :: rest =>
    match op.run s with
    | Except.error f => Except.error f
    | Except.ok s' => run_ops s' rest

/-- The callbacks registered at point `id` in a result, when there is one. -/
def registered (r : Except Fault Host) (id : Nat) : Option (List Ptr) :=
  match r with
  | Except.error _ => none
  | Except.ok s => (s.plugin_hooks[id]?).map PluginHookData.callbacks

/-- The directory `load_plugins` scans. -/
def plugins_dir (getRootDir : String) : String := getRootDir ++ "/linux/plugins"

/-- The path of the plugin directory, with its final NUL, fits in `char dir_path[2100]`. -/
def root_fits (getRootDir : String) : Prop :=
  (getRootDir ++ "/linux/plugins").utf8ByteSize < 2100

instance (getRootDir : String) : Decidable (root_fits getRootDir) := by
  unfold root_fits; infer_instance

/-- The hooks the candidate files of a directory offer, in enumeration order, each
file's hooks in the order of its array. -/
def directory_offers (getRootDir : String) (entries : List dirent) (dl : String → PluginFile) :
    List HookPair :=
  all_offers ((candidates entries).map
    (fun de => dl (full_path (plugins_dir getRootDir) de.d_name)))

/-- The number printed by the last line "Plugin %s loaded with %d hooks." -/
def reported_loaded (s : Host) : Option Int :=
  match s.stderr.getLast? with
  | some (Diag.loaded_with _ n) => some n
  | _ => none

/-- The number of callbacks registered in the whole table. -/
def total_registered (s : Host) : Int :=
  (s.plugin_hooks.map PluginHookData.count).sum

/-- A loader that finds, at every path, a plugin returning the given array with its
length as count. -/
def dl_returning (hooks : List HookPair) : String → PluginFile :=
  fun _ => PluginFile.exports (fun _ => { hooks := some hooks, hooks_count := hooks.length })

/-- The entries of a returned array that `load_single_plugin` reads and whose id lies in
`[0, 64)`. -/
def in_range_entries (arr : List HookPair) (hooks_count : Int) : List HookPair :=
  (arr.take hooks_count.toNat).filter (fun h => decide h.in_range)

/-- The file neither opens nor exports `describe_hooks`. -/
def PluginFile.unusable : PluginFile → Prop
  | PluginFile.open_fails _ => True
  | PluginFile.no_describe_hooks _ => True
  | PluginFile.exports _ => False

instance (p : PluginFile) : Decidable p.unusable := by
  unfold PluginFile.unusable; split <;> infer_instance

/-- The name ends with the suffix ".so", letters compared without regard to case. -/
def ends_with_so (name : String) : Prop :=
  ∃ stem : List Char, name.toList.map Char.toLower = stem ++ ".so".toList

/-- The table `t'` extends the table `t`: same size, and each entry keeps its name
and limit, keeps its callbacks as the first part of its new callback list, and has a
count that did not go down. -/
def grows (t t' : List PluginHookData) : Prop :=
  t'.length = t.length ∧
  ∀ (j : Nat) (e : PluginHookData), t[j]? = some e →
    ∃ (e' : PluginHookData) (more : List Ptr), t'[j]? = some e' ∧
      e'.callbacks = e.callbacks ++ more ∧ e.count ≤ e'.count ∧
      e'.name = e.name ∧ e'.limit = e.limit

/-- The file exports `describe_hooks`, so that loading it makes the entry call. -/
def PluginFile.exporting : PluginFile → Bool
  | PluginFile.exports _ => true
  | _ => false

/-- The number of entry calls `load_plugins` makes on a directory: the exporting files
among the first 8 candidates. -/
def entry_calls (root : String) (entries : List dirent) (dl : String → PluginFile) : Nat :=
  ((((candidates entries).take 8).map
    (fun de => full_path (plugins_dir root) de.d_name)).filter
      (fun p => (dl p).exporting)).length

/-! ## Example inputs -/

/-- A plugin offering six callbacks for id 0 and two for id 1. -/
def describe_eight : FirmwareAPI → DescribeResult := fun _ =>
  { hooks := some [⟨0, 11⟩, ⟨0, 12⟩, ⟨0, 13⟩, ⟨0, 14⟩, ⟨0, 15⟩, ⟨0, 16⟩, ⟨1, 21⟩, ⟨1, 22⟩],
    hooks_count := 8 }

/-- A loader that finds the plugin `describe_eight` at every path. -/
def dl_eight : String → PluginFile := fun _ => PluginFile.exports describe_eight

/-- A sequence of calls: one direct registration, one plugin, one scan of an empty
directory. -/
def ops_example : List Op :=
  [Op.hook ⟨0, 10⟩, Op.single dl_eight "a.so", Op.plugins "/media/fat" (some []) dl_eight]

/-- The state `ops_example` leads to. -/
def state_example : Host :=
  { plugin_hooks :=
      { name := some "plugin_handle_mister_cmd", count := 5, arr := [10, 11, 12, 13, 14],
        limit := 5 } ::
      { name := some "plugin_test", count := 1, arr := [21], limit := 1 } ::
      List.replicate 62 { name := none, count := 0, arr := [], limit := 0 },
    stderr :=
      [Diag.too_many_instances "plugin_handle_mister_cmd" 5,
       Diag.too_many_instances "plugin_handle_mister_cmd" 5,
       Diag.too_many_instances "plugin_test" 1,
       Diag.loaded_with "a.so" 8,
       Diag.loading_plugins],
    dlopened := ["a.so"],
    api_given := [{}] }

/-- A hook for extension point 0. -/
def hook_example : HookPair := { id := 0, ptr := 7 }

/-- A hook for extension point 1. -/
def hook_example_test : HookPair := { id := 1, ptr := 22 }

/-- A directory with one plugin file. -/
def dir_one : List dirent := [{ d_type := DT_REG, d_name := "a.so" }]

/-- A plugin offering one hook for id 0 and one for the out-of-range id 99. -/
def describe_two : FirmwareAPI → DescribeResult := fun _ =>
  { hooks := some [⟨0, 7⟩, ⟨99, 8⟩], hooks_count := 2 }

/-- A loader that finds the plugin `describe_two` at every path. -/
def dl_two : String → PluginFile := fun _ => PluginFile.exports describe_two

/-- A plugin returning one hook with a valid id but the count 65. -/
def describe_too_many : FirmwareAPI → DescribeResult := fun _ =>
  { hooks := some [⟨0, 7⟩], hooks_count := 65 }

/-- A loader that finds the plugin `describe_too_many` at every path. -/
def dl_too_many : String → PluginFile := fun _ => PluginFile.exports describe_too_many

/-- Nine plugin files: one that cannot be opened, seven that refuse, and a last one. -/
def dir_nine : List dirent :=
  [⟨DT_REG, "bad.so"⟩, ⟨DT_REG, "n1.so"⟩, ⟨DT_REG, "n2.so"⟩, ⟨DT_REG, "n3.so"⟩,
   ⟨DT_REG, "n4.so"⟩, ⟨DT_REG, "n5.so"⟩, ⟨DT_REG, "n6.so"⟩, ⟨DT_REG, "n7.so"⟩,
   ⟨DT_REG, "z.so"⟩]

/-- The loader for `dir_nine`: `bad.so` does not open, `z.so` offers one hook for
id 0, every other file returns a null array. -/
def dl_nine : String → PluginFile := fun path =>
  if path = "/media/fat/linux/plugins/bad.so" then PluginFile.open_fails "cannot open"
  else if path = "/media/fat/linux/plugins/z.so" then
    PluginFile.exports (fun _ => { hooks := some [⟨0, 7⟩], hooks_count := 1 })
  else PluginFile.exports (fun _ => { hooks := none, hooks_count := 0 })

/-- A library that lacks `describe_hooks`, and a plugin enumerated after it. -/
def dir_lib : List dirent := [⟨DT_REG, "lib.so"⟩, ⟨DT_REG, "p.so"⟩]

/-- What the dynamic loader finds while `lib.so` is in the directory: `lib.so` opens
(with `RTLD_GLOBAL`) but has no `describe_hooks`; `p.so`, which needs a symbol of
`lib.so`, opens and offers one hook for id 0. -/
def dl_with_lib : String → PluginFile := fun path =>
  if path = "/media/fat/linux/plugins/lib.so" then
    PluginFile.no_describe_hooks "undefined symbol: describe_hooks"
  else PluginFile.exports (fun _ => { hooks := some [⟨0, 7⟩], hooks_count := 1 })

/-- What the dynamic loader finds once `lib.so` is removed: `p.so` misses the symbol
of `lib.so` and does not open. -/
def dl_without_lib : String → PluginFile := fun _ =>
  PluginFile.open_fails "undefined symbol"

/-- Eight plugin files, the first of which cannot be opened. -/
def dir_eight : List dirent := dir_nine.take 8

/-- The initial registry after `hook_example` was registered. -/
def state_one : Host :=
  { plugin_hooks :=
      { name := some "plugin_handle_mister_cmd", count := 1, arr := [7, 0, 0, 0, 0],
        limit := 5 } ::
      { name := some "plugin_test", count := 0, arr := [0], limit := 1 } ::
      List.replicate 62 { name := none, count := 0, arr := [], limit := 0 },
    stderr := [], dlopened := [], api_given := [] }

/-- A plugin that overwrites the `FirmwareAPI` it is given and refuses to register. -/
def describe_writer : FirmwareAPI → DescribeResult := fun api =>
  { hooks := none, hooks_count := 0,
    api_after := { api with version := 99, OsdClear := FnPtr.foreign 5 } }

/-- A loader that finds the plugin `describe_writer` at every path. -/
def dl_writer : String → PluginFile := fun _ => PluginFile.exports describe_writer

/-- Two plugin files. -/
def dir_two : List dirent := [⟨DT_REG, "w1.so"⟩, ⟨DT_REG, "w2.so"⟩]

/-- The state after `load_plugins` on `dir_two` with `dl_writer`. -/
def state_writer : Host :=
  { plugin_hooks := plugin_hooks_initial,
    stderr :=
      [Diag.loading_plugins,
       Diag.no_valid_hooks_array "/media/fat/linux/plugins/w1.so" 0,
       Diag.no_valid_hooks_array "/media/fat/linux/plugins/w2.so" 0],
    dlopened := ["/media/fat/linux/plugins/w1.so", "/media/fat/linux/plugins/w2.so"],
    api_given := [{}, {}] }

/-- A root directory of 2086 bytes. -/
def root_long : String := String.mk (List.replicate 2086 'r')

/-! ## Lemmas -/

theorem set_same_of_getElem? {α : Type} (l : List α) (i : Nat) (a : α)
    (h : l[i]? = some a) : l.set i a = l := by
  have hlt : i < l.length := by
    by_contra hc
    rw [List.getElem?_eq_none (by omega)] at h
    cases h
  apply List.ext_getElem?
  intro n
  rw [List.getElem?_set]
  split
  · next hin => subst hin; exact h.symm
  · rfl

theorem load_hook_table_of_valid (s : Host) (hook : HookPair) (hv : s.Valid)
    (hid : 0 ≤ hook.id ∧ hook.id < 64) :
    ∃ e s', s.plugin_hooks[hook.id.toNat]? = some e ∧ load_hook s hook = Except.ok s' ∧
      s'.plugin_hooks = s.plugin_hooks.set hook.id.toNat (e.offer hook.ptr) ∧
      s'.dlopened = s.dlopened ∧ s'.api_given = s.api_given := by
  obtain ⟨hlen, hall⟩ := hv
  have hlt : hook.id.toNat < s.plugin_hooks.length := by omega
  have hget : s.plugin_hooks[hook.id.toNat]? = some s.plugin_hooks[hook.id.toNat] :=
    List.getElem?_eq_getElem hlt
  have hev := hall _ (List.getElem_mem hlt)
  have h1 : ¬ (hook.id < 0 ∨ MAX_PLUGIN_HOOKS ≤ hook.id) := by
    simp only [MAX_PLUGIN_HOOKS]; omega
  generalize s.plugin_hooks[hook.id.toNat] = e at hget hev
  refine ⟨e, ?_⟩
  have hself : s.plugin_hooks.set hook.id.toNat e = s.plugin_hooks :=
    set_same_of_getElem? _ _ _ hget
  obtain ⟨name, count, arr, limit⟩ := e
  cases name with
  | none =>
    simp [load_hook, h1, hget, PluginHookData.offer, hself]
  | some nm =>
    by_cases hc : count ≥ limit
    · simp [load_hook, h1, hget, PluginHookData.offer, hself, hc]
    · have := hev (by simp)
      simp only at this
      have h2 : 0 ≤ count ∧ count.toNat < arr.length := by omega
      simp [load_hook, h1, hget, PluginHookData.offer, hc, h2]

theorem load_hook_table (s : Host) (hook : HookPair) :
    table (load_hook s hook) = hook_table s.plugin_hooks hook := by
  unfold hook_table load_hook
  dsimp only
  split
  · rfl
  · split
    · rfl
    · next e _ =>
      split
      · rfl
      · split
        · rfl
        · split <;> rfl

theorem load_hook_frame (s s' : Host) (hook : HookPair) (h : load_hook s hook = Except.ok s') :
    s'.dlopened = s.dlopened ∧ s'.api_given = s.api_given ∧ ∃ l, s'.stderr = s.stderr ++ l := by
  unfold load_hook at h
  dsimp only at h
  split at h
  · cases h
  · split at h
    · cases h
    · split at h
      · cases h; exact ⟨rfl, rfl, _, rfl⟩
      · split at h
        · cases h; exact ⟨rfl, rfl, _, rfl⟩
        · split at h
          · cases h; exact ⟨rfl, rfl, [], by simp⟩
          · cases h

theorem loop_view_eq (path : String) (hooks : List HookPair) (n : Nat) :
    ∀ (i : Nat) (loaded : Int) (s : Host), i ≤ hooks.length →
    loop_view (load_single_plugin.loop path hooks n i loaded s) =
      match register_all s.plugin_hooks
        (((hooks.drop i).take n).filter (fun h => decide h.in_range)) with
      | Except.error f => Except.error f
      | Except.ok t' =>
        if n + i ≤ hooks.length then
          Except.ok (t', loaded +
            ((((hooks.drop i).take n).filter (fun h => decide h.in_range)).length : Int))
        else Except.error Fault.hooks_oob := by
  induction n with
  | zero =>
    intro i loaded s hi
    simp [load_single_plugin.loop, loop_view, register_all, hi]
  | succ n ih =>
    intro i loaded s hi
    rcases Nat.lt_or_ge i hooks.length with hlt | hge
    · have hget : hooks[i]? = some hooks[i] := List.getElem?_eq_getElem hlt
      have hdrop : hooks.drop i = hooks[i] :: hooks.drop (i + 1) :=
        List.drop_eq_getElem_cons hlt
      rw [hdrop, List.take_succ_cons]
      have hcond : (n + 1 + i ≤ hooks.length) ↔ (n + (i + 1) ≤ hooks.length) := by
        omega
      unfold load_single_plugin.loop
      rw [hget]
      dsimp only
      by_cases hr : (hooks[i]).in_range
      · have hneg : ¬ ((hooks[i]).id < 0 ∨ (hooks[i]).id ≥ MAX_PLUGIN_HOOKS) := by
          unfold HookPair.in_range at hr; omega
        rw [if_neg hneg, List.filter_cons_of_pos (by simpa using hr)]
        have hproj := load_hook_table s hooks[i]
        cases hl : load_hook s hooks[i] with
        | error f =>
          rw [hl] at hproj
          simp only [table] at hproj
          simp only [register_all, ← hproj, loop_view]
        | ok s' =>
          rw [hl] at hproj
          simp only [table] at hproj
          simp only [register_all, ← hproj]
          rw [ih (i + 1) (loaded + 1) s' hlt]
          simp only [List.length_cons, hcond]
          split
          · rfl
          · split
            · congr 2; push_cast; ring
            · rfl
      · have hpos : ((hooks[i]).id < 0 ∨ (hooks[i]).id ≥ MAX_PLUGIN_HOOKS) := by
          unfold HookPair.in_range at hr; omega
        rw [if_pos hpos, List.filter_cons_of_neg (by simpa using hr)]
        rw [ih (i + 1) loaded _ hlt]
        simp only [hcond]
    · have hget : hooks[i]? = none := List.getElem?_eq_none hge
      have hdrop : hooks.drop i = [] := List.drop_eq_nil_of_le hge
      unfold load_single_plugin.loop
      rw [hget, hdrop]
      have : ¬ (n + 1 + i ≤ hooks.length) := by omega
      simp [loop_view, register_all, this]

theorem loop_frame (path : String) (hooks : List HookPair) (n : Nat) :
    ∀ (i : Nat) (loaded : Int) (s s' : Host) (loaded' : Int),
    load_single_plugin.loop path hooks n i loaded s = Except.ok (s', loaded') →
    s'.dlopened = s.dlopened ∧ s'.api_given = s.api_given ∧ ∃ l, s'.stderr = s.stderr ++ l := by
  induction n with
  | zero =>
    intro i loaded s s' loaded' h
    simp only [load_single_plugin.loop, Except.ok.injEq, Prod.mk.injEq] at h
    obtain ⟨rfl, _⟩ := h
    exact ⟨rfl, rfl, [], by simp⟩
  | succ n ih =>
    intro i loaded s s' loaded' h
    unfold load_single_plugin.loop at h
    split at h
    · cases h
    · split at h
      · next hk _ _ =>
        obtain ⟨h1, h2, l, h3⟩ := ih _ _ _ _ _ h
        exact ⟨h1, h2, Diag.incorrect_value path i hk.id :: l, by rw [h3]; simp⟩
      · split at h
        · cases h
        · next s1 hl =>
          obtain ⟨h1, h2, l, h3⟩ := ih _ _ _ _ _ h
          obtain ⟨g1, g2, l', g3⟩ := load_hook_frame _ _ _ hl
          exact ⟨h1.trans g1, h2.trans g2, l' ++ l, by rw [h3, g3]; simp⟩

theorem register_table_eq (path : String) (hooks : Option (List HookPair)) (cnt : Int)
    (s : Host) :
    table (load_single_plugin.register path hooks cnt s) =
      register_table s.plugin_hooks hooks cnt := by
  unfold load_single_plugin.register register_table offers_of in_bounds
  cases hooks with
  | none => simp [table, register_all]
  | some hooks =>
    dsimp only
    by_cases hc : cnt ≤ 0 ∨ cnt > MAX_PLUGIN_HOOKS
    · simp [hc, table, register_all]
    · rw [if_neg hc, if_neg hc]
      have hv := loop_view_eq path hooks cnt.toNat 0 0 s (Nat.zero_le _)
      simp only [List.drop_zero, Nat.add_zero, zero_add] at hv
      simp only [hc, false_or]
      generalize register_all s.plugin_hooks
        (List.filter (fun h => decide h.in_range) (List.take cnt.toNat hooks)) = R at hv ⊢
      cases hl : load_single_plugin.loop path hooks cnt.toNat 0 0 s with
      | error e =>
        rw [hl] at hv
        simp only [loop_view] at hv
        simp only [table]
        cases R with
        | error f => simpa using hv
        | ok t' =>
          by_cases hb : cnt.toNat ≤ hooks.length
          · simp [hb] at hv
          · simpa [hb] using hv
      | ok p =>
        obtain ⟨s3, loaded⟩ := p
        rw [hl] at hv
        simp only [loop_view] at hv
        simp only [table]
        cases R with
        | error f => simp at hv
        | ok t' =>
          by_cases hb : cnt.toNat ≤ hooks.length
          · simp only [hb, if_true, Except.ok.injEq, Prod.mk.injEq] at hv
            simp [hb, hv.1]
          · simp [hb] at hv

theorem load_single_plugin_table (dl : String → PluginFile) (s : Host) (path : String) :
    table (load_single_plugin dl s path) = file_table s.plugin_hooks (dl path) := by
  unfold load_single_plugin
  dsimp only
  cases hdl : dl path with
  | open_fails err => simp [file_table, table]
  | no_describe_hooks err => simp [file_table, table]
  | exports f =>
    simp only [file_table]
    rw [register_table_eq]

theorem load_single_plugin_frame (dl : String → PluginFile) (s s' : Host) (path : String)
    (h : load_single_plugin dl s path = Except.ok s') :
    s'.dlopened = s.dlopened ++ [path] := by
  unfold load_single_plugin at h
  dsimp only at h
  split at h
  · cases h; rfl
  · cases h; rfl
  · unfold load_single_plugin.register at h
    split at h
    · cases h; rfl
    · split at h
      · cases h; rfl
      · split at h
        · cases h
        · next s3 loaded hl =>
          cases h
          exact (loop_frame _ _ _ _ _ _ _ _ hl).1

theorem scan_eq_load_all (dl : String → PluginFile) (dir_path : String)
    (entries : List dirent) :
    ∀ (loaded : Int) (s : Host),
    load_plugins.scan dl dir_path entries loaded s =
      load_all dl s ((((candidates entries).take (MAX_PLUGINS - loaded).toNat)).map
        (fun de => full_path dir_path de.d_name)) := by
  induction entries with
  | nil => intro loaded s; simp [load_plugins.scan, candidates, load_all]
  | cons de rest ih =>
    intro loaded s
    unfold load_plugins.scan
    by_cases hl : loaded < MAX_PLUGINS
    · rw [if_pos hl]
      by_cases h1 : de.d_type ≠ DT_REG ∨ de.d_name.toList.head? = some '.' ∨
          '/' ∈ de.d_name.toList
      · rw [if_pos h1, ih]
        have : ¬ de.candidate := fun hc => hc.1 h1
        simp [candidates, this]
      · rw [if_neg h1]
        dsimp only
        by_cases h2 : de.d_name.length > 3 ∧
            strncasecmp (de.d_name.toList.drop (de.d_name.length - 3)) ".so".toList 3 = 0
        · rw [if_pos h2]
          have hc : de.candidate := ⟨h1, h2⟩
          have hk : (MAX_PLUGINS - loaded).toNat = (MAX_PLUGINS - (loaded + 1)).toNat + 1 := by
            simp only [MAX_PLUGINS] at hl ⊢; omega
          have hcs : candidates (de :: rest) = de :: candidates rest := by
            simp [candidates, hc]
          rw [hcs, hk, List.take_succ_cons, List.map_cons]
          simp only [load_all]
          cases load_single_plugin dl s (full_path dir_path de.d_name) with
          | error f => rfl
          | ok s' => exact ih _ _
        · rw [if_neg h2, ih]
          have : ¬ de.candidate := fun hc => h2 hc.2
          simp [candidates, this]
    · rw [if_neg hl]
      have hk : (MAX_PLUGINS - loaded).toNat = 0 := by
        simp only [MAX_PLUGINS] at hl ⊢; omega
      simp [hk, load_all]

theorem load_all_table (dl : String → PluginFile) (paths : List String) :
    ∀ s : Host, table (load_all dl s paths) = files_table s.plugin_hooks (paths.map dl) := by
  induction paths with
  | nil => intro s; rfl
  | cons p rest ih =>
    intro s
    simp only [load_all, List.map_cons, files_table]
    have h := load_single_plugin_table dl s p
    cases hl : load_single_plugin dl s p with
    | error f => rw [hl] at h; simp only [table] at h; rw [← h]; rfl
    | ok s' => rw [hl] at h; simp only [table] at h; rw [← h]; exact ih s'

theorem load_all_frame (dl : String → PluginFile) (paths : List String) :
    ∀ s s' : Host, load_all dl s paths = Except.ok s' → s'.dlopened = s.dlopened ++ paths := by
  induction paths with
  | nil => intro s s' h; simp only [load_all] at h; cases h; simp
  | cons p rest ih =>
    intro s s' h
    simp only [load_all] at h
    split at h
    · cases h
    · next s1 h1 =>
      rw [ih _ _ h, load_single_plugin_frame _ _ _ _ h1]
      simp

theorem take_succ_set {α : Type} (l : List α) (c : Nat) (a : α) (h : c < l.length) :
    (l.set c a).take (c + 1) = l.take c ++ [a] := by
  induction l generalizing c with
  | nil => simp at h
  | cons x xs ih =>
    cases c with
    | zero => simp
    | succ c =>
      simp only [List.set_cons_succ, List.take_succ_cons, List.cons_append, List.cons.injEq,
        true_and]
      exact ih c (by simpa using h)

theorem take_take_append {α : Type} (n : Nat) (A B : List α) :
    (A.take n ++ B).take n = (A ++ B).take n := by
  induction A generalizing n with
  | nil => simp
  | cons a A ih =>
    cases n with
    | zero => simp
    | succ n => simp [ih]

theorem offer_undeclared (e : PluginHookData) (p : Ptr) (h : e.name = none) : e.offer p = e := by
  simp [PluginHookData.offer, h]

theorem offer_all_undeclared (e : PluginHookData) (ptrs : List Ptr) (h : e.name = none) :
    e.offer_all ptrs = e := by
  induction ptrs with
  | nil => rfl
  | cons p ps ih =>
    simp only [PluginHookData.offer_all, List.foldl_cons, offer_undeclared e p h]
    exact ih

theorem offer_spec (e : PluginHookData) (p : Ptr) (hv : e.Valid) (hn : e.name ≠ none) :
    (e.offer p).name = e.name ∧ (e.offer p).limit = e.limit ∧ (e.offer p).Valid ∧
    (e.offer p).callbacks = (e.callbacks ++ [p]).take e.limit.toNat ∧
    (e.offer p).count = min e.limit (e.count + 1) := by
  obtain ⟨h0, hle, hlen⟩ := hv hn
  have hcl : e.callbacks.length = e.count.toNat := by
    simp only [PluginHookData.callbacks, List.length_take]; omega
  unfold PluginHookData.offer
  rw [if_neg hn]
  by_cases hc : e.count ≥ e.limit
  · rw [if_pos hc]
    refine ⟨rfl, rfl, fun _ => ⟨h0, hle, hlen⟩, ?_, by omega⟩
    have : e.limit.toNat = e.callbacks.length := by rw [hcl]; omega
    rw [this, List.take_left']
    rfl
  · rw [if_neg hc]
    refine ⟨rfl, rfl, fun _ => ⟨by simp only; omega, by simp only; omega, by simpa using hlen⟩,
      ?_, by simp only; omega⟩
    simp only [PluginHookData.callbacks]
    have h1 : (e.count + 1).toNat = e.count.toNat + 1 := by omega
    rw [h1, take_succ_set _ _ _ (by omega)]
    have h2 : (List.take e.count.toNat e.arr ++ [p]).length ≤ e.limit.toNat := by
      simp only [List.length_append, List.length_take, List.length_singleton]
      omega
    rw [List.take_of_length_le h2]

theorem offer_all_spec (ptrs : List Ptr) :
    ∀ (e : PluginHookData), e.Valid → e.name ≠ none →
    (e.offer_all ptrs).name = e.name ∧ (e.offer_all ptrs).limit = e.limit ∧
    (e.offer_all ptrs).Valid ∧
    (e.offer_all ptrs).callbacks = (e.callbacks ++ ptrs).take e.limit.toNat ∧
    (e.offer_all ptrs).count = min e.limit (e.count + ptrs.length) := by
  induction ptrs with
  | nil =>
    intro e hv hn
    obtain ⟨h0, hle, hlen⟩ := hv hn
    refine ⟨rfl, rfl, hv, ?_, ?_⟩
    · simp only [PluginHookData.offer_all, List.foldl_nil, List.append_nil]
      rw [List.take_of_length_le]
      simp only [PluginHookData.callbacks, List.length_take]; omega
    · simp only [PluginHookData.offer_all, List.foldl_nil, List.length_nil]; omega
  | cons p ps ih =>
    intro e hv hn
    obtain ⟨a1, a2, a3, a4, a5⟩ := offer_spec e p hv hn
    obtain ⟨b1, b2, b3, b4, b5⟩ := ih (e.offer p) a3 (by rw [a1]; exact hn)
    have hfold : e.offer_all (p :: ps) = (e.offer p).offer_all ps := rfl
    rw [hfold]
    refine ⟨b1.trans a1, b2.trans a2, b3, ?_, ?_⟩
    · rw [b4, a4, a2]
      rw [take_take_append]
      simp
    · rw [b5, a5, a2]
      simp only [List.length_cons]
      obtain ⟨h0, hle, hlen⟩ := hv hn
      omega

theorem offer_valid (e : PluginHookData) (p : Ptr) (hv : e.Valid) : (e.offer p).Valid := by
  by_cases hn : e.name = none
  · rw [offer_undeclared e p hn]; exact hv
  · exact (offer_spec e p hv hn).2.2.1

theorem hook_table_valid (t : List PluginHookData) (h : HookPair) (hv : TableValid t)
    (hr : h.in_range) :
    ∃ e, t[h.id.toNat]? = some e ∧
      hook_table t h = Except.ok (t.set h.id.toNat (e.offer h.ptr)) ∧
      TableValid (t.set h.id.toNat (e.offer h.ptr)) := by
  obtain ⟨e, s', h1, h2, h3, _, _⟩ := load_hook_table_of_valid
    { plugin_hooks := t, stderr := [], dlopened := [], api_given := [] } h hv
    (by simpa [HookPair.in_range, MAX_PLUGIN_HOOKS] using hr)
  refine ⟨e, h1, ?_, ?_⟩
  · simp only [hook_table, h2, table, h3]
  · have hmem : e ∈ t := List.getElem?_mem h1
    refine ⟨by rw [List.length_set]; exact hv.1, ?_⟩
    intro x hx
    rcases List.mem_or_eq_of_mem_set hx with hx | hx
    · exact hv.2 x hx
    · rw [hx]; exact offer_valid e h.ptr (hv.2 e hmem)

theorem register_all_valid (L : List HookPair) :
    ∀ t : List PluginHookData, TableValid t → (∀ h ∈ L, h.in_range) →
    ∃ t', register_all t L = Except.ok t' ∧ TableValid t' ∧
      ∀ (j : Nat) (e : PluginHookData), t[j]? = some e →
        t'[j]? = some (e.offer_all (ptrs_for j L)) := by
  induction L with
  | nil =>
    intro t hv _
    exact ⟨t, rfl, hv, fun j e he => by simpa [ptrs_for, PluginHookData.offer_all] using he⟩
  | cons h L ih =>
    intro t hv hall
    have hr : h.in_range := hall h (List.mem_cons_self _ _)
    obtain ⟨e0, g1, g2, g3⟩ := hook_table_valid t h hv hr
    obtain ⟨t', k1, k2, k3⟩ := ih _ g3 (fun x hx => hall x (List.mem_cons_of_mem _ hx))
    refine ⟨t', by simp only [register_all, g2, k1], k2, ?_⟩
    intro j e he
    have hlt : j < t.length := by
      by_contra hc
      rw [List.getElem?_eq_none (by omega)] at he
      cases he
    by_cases hj : h.id.toNat = j
    · subst hj
      have he0 : e0 = e := by rw [g1] at he; exact Option.some.inj he
      subst he0
      have hid : h.id = ((h.id.toNat : Nat) : Int) := by
        have := hr.1; omega
      have hp : ptrs_for (h.id.toNat : Nat) (h :: L) = h.ptr :: ptrs_for (h.id.toNat : Nat) L := by
        simp [ptrs_for, ← hid]
      rw [hp]
      apply k3
      rw [List.getElem?_set_self hlt]
    · have hne : ¬ h.id = (j : Int) := by
        intro hc; apply hj; rw [hc]; simp
      have hp : ptrs_for (j : Int) (h :: L) = ptrs_for (j : Int) L := by
        simp [ptrs_for, hne]
      rw [hp]
      apply k3
      rw [List.getElem?_set_ne hj]
      exact he

theorem register_all_append (A B : List HookPair) :
    ∀ t : List PluginHookData, register_all t (A ++ B) =
      match register_all t A with
      | Except.error f => Except.error f
      | Except.ok t' => register_all t' B := by
  induction A with
  | nil => intro t; rfl
  | cons a A ih =>
    intro t
    simp only [List.cons_append, register_all]
    cases hook_table t a with
    | error f => rfl
    | ok t1 => exact ih t1

theorem offers_of_in_range (hooks : Option (List HookPair)) (cnt : Int) :
    ∀ h ∈ offers_of hooks cnt, h.in_range := by
  intro h hh
  unfold offers_of at hh
  split at hh
  · simp at hh
  · split at hh
    · simp at hh
    · simpa using (List.mem_filter.mp hh).2

theorem offers_in_range (p : PluginFile) : ∀ h ∈ p.offers, h.in_range := by
  intro h hh
  cases p with
  | open_fails e => simp [PluginFile.offers] at hh
  | no_describe_hooks e => simp [PluginFile.offers] at hh
  | exports f => exact offers_of_in_range _ _ h hh

theorem all_offers_in_range (ps : List PluginFile) : ∀ h ∈ all_offers ps, h.in_range := by
  induction ps with
  | nil => intro h hh; simp [all_offers] at hh
  | cons p ps ih =>
    intro h hh
    simp only [all_offers, List.mem_append] at hh
    rcases hh with hh | hh
    · exact offers_in_range p h hh
    · exact ih h hh

theorem file_table_eq (t : List PluginHookData) (p : PluginFile) :
    file_table t p =
      match register_all t p.offers with
      | Except.error f => Except.error f
      | Except.ok t' => if p.InBounds then Except.ok t' else Except.error Fault.hooks_oob := by
  cases p with
  | open_fails e => simp [file_table, PluginFile.offers, PluginFile.InBounds, register_all]
  | no_describe_hooks e => simp [file_table, PluginFile.offers, PluginFile.InBounds, register_all]
  | exports f => rfl

theorem files_table_eq (ps : List PluginFile) :
    ∀ t : List PluginHookData, (∀ p ∈ ps, p.InBounds) →
    files_table t ps = register_all t (all_offers ps) := by
  induction ps with
  | nil => intro t _; rfl
  | cons p ps ih =>
    intro t hb
    simp only [files_table, all_offers, register_all_append, file_table_eq]
    cases register_all t p.offers with
    | error f => rfl
    | ok t1 =>
      simp only [hb p (List.mem_cons_self _ _), if_true]
      exact ih t1 (fun q hq => hb q (List.mem_cons_of_mem _ hq))

theorem offer_all_signature (e : PluginHookData) (ptrs : List Ptr) (hv : e.Valid) :
    (e.offer_all ptrs).name = e.name ∧ (e.offer_all ptrs).limit = e.limit := by
  by_cases hn : e.name = none
  · rw [offer_all_undeclared e ptrs hn]; exact ⟨rfl, rfl⟩
  · exact ⟨(offer_all_spec ptrs e hv hn).1, (offer_all_spec ptrs e hv hn).2.1⟩

theorem register_all_signature (L : List HookPair) (t t' : List PluginHookData)
    (hv : TableValid t) (hr : ∀ h ∈ L, h.in_range) (h : register_all t L = Except.ok t') :
    TableValid t' ∧ signature t' = signature t := by
  obtain ⟨t1, k1, k2, k3⟩ := register_all_valid L t hv hr
  rw [k1] at h
  cases h
  refine ⟨k2, ?_⟩
  apply List.ext_getElem?
  intro j
  simp only [signature, List.getElem?_map]
  cases he : t[j]? with
  | none =>
    have : t'[j]? = none := by
      have hl := List.getElem?_eq_none_iff.mp he
      apply List.getElem?_eq_none
      rw [k2.1, ← hv.1]; exact hl
    rw [this]
  | some e =>
    rw [k3 j e he]
    have := offer_all_signature e (ptrs_for j L) (hv.2 e (List.getElem?_mem he))
    simp [this.1, this.2]

theorem inv_initial : Inv plugin_hooks_initial := by
  refine ⟨by decide, rfl⟩

theorem register_all_inv (L : List HookPair) (t t' : List PluginHookData) (hi : Inv t)
    (hr : ∀ h ∈ L, h.in_range) (h : register_all t L = Except.ok t') : Inv t' := by
  obtain ⟨h1, h2⟩ := register_all_signature L t t' hi.1 hr h
  exact ⟨h1, h2.trans hi.2⟩

theorem file_table_inv (t t' : List PluginHookData) (p : PluginFile) (hi : Inv t)
    (h : file_table t p = Except.ok t') : Inv t' := by
  rw [file_table_eq] at h
  split at h
  · cases h
  · next t1 h1 =>
    split at h
    · cases h; exact register_all_inv _ _ _ hi (offers_in_range p) h1
    · cases h

theorem files_table_inv (ps : List PluginFile) :
    ∀ (t t' : List PluginHookData), Inv t → files_table t ps = Except.ok t' → Inv t' := by
  induction ps with
  | nil => intro t t' hi h; simp only [files_table] at h; cases h; exact hi
  | cons p ps ih =>
    intro t t' hi h
    simp only [files_table] at h
    split at h
    · cases h
    · next t1 h1 => exact ih t1 t' (file_table_inv _ _ _ hi h1) h

theorem table_ok {r : Except Fault Host} {s : Host} (h : r = Except.ok s) :
    table r = Except.ok s.plugin_hooks := by
  rw [h]; rfl

theorem load_hook_inv (s s' : Host) (hook : HookPair) (hi : Inv s.plugin_hooks)
    (h : load_hook s hook = Except.ok s') : Inv s'.plugin_hooks := by
  have hr : hook.in_range := by
    by_contra hc
    have : hook.id < 0 ∨ MAX_PLUGIN_HOOKS ≤ hook.id := by
      unfold HookPair.in_range at hc; omega
    unfold load_hook at h
    rw [if_pos this] at h
    cases h
  have ht := table_ok h
  rw [load_hook_table] at ht
  apply register_all_inv [hook] s.plugin_hooks _ hi
  · intro x hx; simp only [List.mem_singleton] at hx; rw [hx]; exact hr
  · simp only [register_all, ht]

theorem load_single_plugin_inv (dl : String → PluginFile) (s s' : Host) (path : String)
    (hi : Inv s.plugin_hooks) (h : load_single_plugin dl s path = Except.ok s') :
    Inv s'.plugin_hooks := by
  have ht := table_ok h
  rw [load_single_plugin_table] at ht
  exact file_table_inv _ _ _ hi ht

theorem load_all_inv (dl : String → PluginFile) (paths : List String) (s s' : Host)
    (hi : Inv s.plugin_hooks) (h : load_all dl s paths = Except.ok s') :
    Inv s'.plugin_hooks := by
  have ht := table_ok h
  rw [load_all_table] at ht
  exact files_table_inv _ _ _ hi ht

theorem load_plugins_inv (root : String) (d : Option (List dirent)) (dl : String → PluginFile)
    (s s' : Host) (hi : Inv s.plugin_hooks) (h : load_plugins root d dl s = Except.ok s') :
    Inv s'.plugin_hooks := by
  unfold load_plugins at h
  dsimp only at h
  split at h
  · cases h
  · cases d with
    | none => simp only at h; cases h; exact hi
    | some entries =>
      simp only at h
      rw [scan_eq_load_all] at h
      refine load_all_inv _ _ _ _ ?_ h
      exact hi

theorem run_ops_inv (ops : List Op) :
    ∀ (s s' : Host), Inv s.plugin_hooks → run_ops s ops = Except.ok s' →
      Inv s'.plugin_hooks := by
  induction ops with
  | nil => intro s s' hi h; simp only [run_ops] at h; cases h; exact hi
  | cons op ops ih =>
    intro s s' hi h
    simp only [run_ops] at h
    split at h
    · cases h
    · next s1 h1 =>
      refine ih s1 s' ?_ h
      cases op with
      | hook hk => simp only [Op.run] at h1; exact load_hook_inv _ _ _ hi h1
      | single dl path => simp only [Op.run] at h1; exact load_single_plugin_inv _ _ _ _ hi h1
      | plugins root d dl => simp only [Op.run] at h1; exact load_plugins_inv _ _ _ _ _ hi h1

theorem inv_points (t : List PluginHookData) (hi : Inv t) :
    (∃ e, t[0]? = some e ∧ e.name = some "plugin_handle_mister_cmd" ∧ e.limit = 5 ∧
      0 ≤ e.count ∧ e.count ≤ 5) ∧
    (∃ e, t[1]? = some e ∧ e.name = some "plugin_test" ∧ e.limit = 1 ∧
      0 ≤ e.count ∧ e.count ≤ 1) ∧
    (∀ (j : Nat) (e : PluginHookData), t[j]? = some e → e.name ≠ none → j = 0 ∨ j = 1) := by
  obtain ⟨hv, hs⟩ := hi
  have hsig : ∀ j : Nat, (t[j]?).map (fun e => (e.name, e.limit)) =
      (signature plugin_hooks_initial)[j]? := by
    intro j; rw [← hs]; simp [signature]
  refine ⟨?_, ?_, ?_⟩
  · have h0 := hsig 0
    cases he : t[0]? with
    | none => rw [he] at h0; simp [signature, plugin_hooks_initial] at h0
    | some e =>
      rw [he] at h0
      simp [signature, plugin_hooks_initial] at h0
      have hv' := hv.2 e (List.getElem?_mem he) (by rw [h0.1]; simp)
      refine ⟨e, rfl, h0.1, h0.2, hv'.1, ?_⟩
      rw [← h0.2]; exact hv'.2.1
  · have h0 := hsig 1
    cases he : t[1]? with
    | none => rw [he] at h0; simp [signature, plugin_hooks_initial] at h0
    | some e =>
      rw [he] at h0
      simp [signature, plugin_hooks_initial] at h0
      have hv' := hv.2 e (List.getElem?_mem he) (by rw [h0.1]; simp)
      refine ⟨e, rfl, h0.1, h0.2, hv'.1, ?_⟩
      rw [← h0.2]; exact hv'.2.1
  · intro j e he hn
    have h0 := hsig j
    rw [he] at h0
    match j with
    | 0 => exact Or.inl rfl
    | 1 => exact Or.inr rfl
    | j + 2 =>
      exfalso
      simp only [signature, plugin_hooks_initial, List.map_cons, List.getElem?_cons_succ,
        List.map_replicate, Option.map_some'] at h0
      have := List.getElem?_mem h0.symm
      simp only [List.mem_replicate, Prod.mk.injEq] at this
      exact hn this.2.1

theorem load_hook_dropped (s : Host) (hook : HookPair) (hsz : s.plugin_hooks.length = 64)
    (hid : 0 ≤ hook.id ∧ hook.id < 64)
    (hdrop : ∀ e, s.plugin_hooks[hook.id.toNat]? = some e → e.name = none ∨ e.limit ≤ e.count) :
    ∃ s', load_hook s hook = Except.ok s' ∧ s'.plugin_hooks = s.plugin_hooks ∧
      s'.dlopened = s.dlopened ∧ s'.api_given = s.api_given := by
  have hlt : hook.id.toNat < s.plugin_hooks.length := by omega
  have hget : s.plugin_hooks[hook.id.toNat]? = some s.plugin_hooks[hook.id.toNat] :=
    List.getElem?_eq_getElem hlt
  have h1 : ¬ (hook.id < 0 ∨ MAX_PLUGIN_HOOKS ≤ hook.id) := by
    simp only [MAX_PLUGIN_HOOKS]; omega
  have hd := hdrop _ hget
  generalize s.plugin_hooks[hook.id.toNat] = e at hget hd
  obtain ⟨name, count, arr, limit⟩ := e
  cases name with
  | none => simp [load_hook, h1, hget]
  | some nm =>
    have hc : count ≥ limit := by simpa using hd
    simp [load_hook, h1, hget, hc]

theorem register_all_callbacks (L : List HookPair) (t : List PluginHookData) (j : Nat)
    (e : PluginHookData) (hv : TableValid t) (hr : ∀ h ∈ L, h.in_range)
    (he : t[j]? = some e) (hn : e.name ≠ none) :
    ∃ t' e', register_all t L = Except.ok t' ∧ TableValid t' ∧ t'[j]? = some e' ∧
      e'.name = e.name ∧ e'.limit = e.limit ∧
      e'.callbacks = (e.callbacks ++ ptrs_for j L).take e.limit.toNat ∧
      e'.count = min e.limit (e.count + (ptrs_for j L).length) := by
  obtain ⟨t', k1, k2, k3⟩ := register_all_valid L t hv hr
  obtain ⟨a1, a2, _, a4, a5⟩ := offer_all_spec (ptrs_for j L) e (hv.2 e (List.getElem?_mem he)) hn
  exact ⟨t', _, k1, k2, k3 j e he, a1, a2, a4, a5⟩

theorem calls_eq {α : Type} (arr : List Ptr) (args : α) (n : Nat) :
    ∀ (i : Nat) (made : List (Ptr × α)), n + i ≤ arr.length →
    DEFINE_PLUGIN_API_HOOK.calls arr args n i made =
      Except.ok (made ++ ((arr.drop i).take n).map (fun f => (f, args))) := by
  induction n with
  | zero => intro i made _; simp [DEFINE_PLUGIN_API_HOOK.calls]
  | succ n ih =>
    intro i made h
    have hlt : i < arr.length := by omega
    unfold DEFINE_PLUGIN_API_HOOK.calls
    rw [List.getElem?_eq_getElem hlt]
    dsimp only
    rw [ih (i + 1) _ (by omega), List.drop_eq_getElem_cons hlt]
    simp only [List.take_succ_cons, List.map_cons, List.append_assoc, List.singleton_append]

theorem invoker_eq {α : Type} (id : Nat) (s : Host) (args : α) (e : PluginHookData)
    (he : s.plugin_hooks[id]? = some e) (hv : e.Valid) (hn : e.name ≠ none) :
    DEFINE_PLUGIN_API_HOOK.invoker id s args =
      Except.ok (e.callbacks.map (fun f => (f, args)), e.count) := by
  obtain ⟨h0, hle, hlen⟩ := hv hn
  unfold DEFINE_PLUGIN_API_HOOK.invoker
  rw [he]
  dsimp only
  rw [calls_eq e.arr args e.count.toNat 0 [] (by omega)]
  simp [PluginHookData.callbacks]

theorem load_plugins_eq_load_all (root : String) (entries : List dirent)
    (dl : String → PluginFile) (s : Host) (hfit : root_fits root) :
    load_plugins root (some entries) dl s =
      load_all dl { s with stderr := s.stderr ++ [Diag.loading_plugins] }
        (((candidates entries).take 8).map (fun de => full_path (plugins_dir root) de.d_name)) := by
  have hno : ¬ (2100 ≤ (root ++ "/linux/plugins").utf8ByteSize) := by
    unfold root_fits at hfit; omega
  unfold load_plugins
  dsimp only
  rw [if_neg hno, scan_eq_load_all]
  rfl

theorem load_plugins_overflow (root : String) (d : Option (List dirent))
    (dl : String → PluginFile) (s : Host) (hfit : ¬ root_fits root) :
    load_plugins root d dl s = Except.error Fault.dir_path_oob := by
  have hyes : 2100 ≤ (root ++ "/linux/plugins").utf8ByteSize := by
    unfold root_fits at hfit; omega
  unfold load_plugins
  dsimp only
  rw [if_pos hyes]

theorem load_plugins_ok_fits (root : String) (d : Option (List dirent))
    (dl : String → PluginFile) (s s' : Host) (h : load_plugins root d dl s = Except.ok s') :
    root_fits root := by
  by_contra hc
  rw [load_plugins_overflow root d dl s hc] at h
  cases h

theorem registered_load_all (dl : String → PluginFile) (paths : List String) (s : Host)
    (j : Nat) (e : PluginHookData) (hv : s.Valid) (hb : ∀ p ∈ paths, (dl p).InBounds)
    (he : s.plugin_hooks[j]? = some e) (hn : e.name ≠ none) :
    ∃ s' e', load_all dl s paths = Except.ok s' ∧ s'.Valid ∧ s'.plugin_hooks[j]? = some e' ∧
      e'.name = e.name ∧ e'.limit = e.limit ∧
      e'.callbacks = (e.callbacks ++ ptrs_for j (all_offers (paths.map dl))).take e.limit.toNat ∧
      e'.count = min e.limit (e.count + (ptrs_for j (all_offers (paths.map dl))).length) := by
  obtain ⟨t', e', k1, k2, k3, k4, k5, k6, k7⟩ :=
    register_all_callbacks (all_offers (paths.map dl)) s.plugin_hooks j e hv
      (all_offers_in_range _) he hn
  have ht := load_all_table dl paths s
  rw [files_table_eq _ _ (by simpa using hb), k1] at ht
  cases hl : load_all dl s paths with
  | error f => rw [hl] at ht; cases ht
  | ok s' =>
    rw [hl] at ht
    simp only [table, Except.ok.injEq] at ht
    refine ⟨s', e', rfl, ?_, ?_, k4, k5, k6, k7⟩
    · unfold Host.Valid; rw [ht]; exact k2
    · rw [ht]; exact k3

theorem files_table_append (A B : List PluginFile) :
    ∀ t : List PluginHookData, files_table t (A ++ B) =
      match files_table t A with
      | Except.error f => Except.error f
      | Except.ok t' => files_table t' B := by
  induction A with
  | nil => intro t; rfl
  | cons a A ih =>
    intro t
    simp only [List.cons_append, files_table]
    cases file_table t a with
    | error f => rfl
    | ok t1 => exact ih t1

theorem candidates_append (A B : List dirent) :
    candidates (A ++ B) = candidates A ++ candidates B := by
  simp [candidates]

theorem candidates_cons (de : dirent) (B : List dirent) :
    candidates (de :: B) = (if de.candidate then [de] else []) ++ candidates B := by
  by_cases h : de.candidate <;> simp [candidates, h]

theorem file_table_unusable (t : List PluginHookData) (p : PluginFile) (h : p.unusable) :
    file_table t p = Except.ok t := by
  cases p with
  | open_fails e => rfl
  | no_describe_hooks e => rfl
  | exports f => exact absurd h (by simp [PluginFile.unusable])

theorem load_all_total (dl : String → PluginFile) (paths : List String) (s : Host)
    (hv : s.Valid) (hb : ∀ p ∈ paths, (dl p).InBounds) :
    ∃ s', load_all dl s paths = Except.ok s' ∧ s'.Valid := by
  obtain ⟨t', k1, k2, _⟩ := register_all_valid (all_offers (paths.map dl)) s.plugin_hooks hv
    (all_offers_in_range _)
  have ht := load_all_table dl paths s
  rw [files_table_eq _ _ (by simpa using hb), k1] at ht
  cases hl : load_all dl s paths with
  | error f => rw [hl] at ht; cases ht
  | ok s' =>
    rw [hl] at ht
    simp only [table, Except.ok.injEq] at ht
    refine ⟨s', rfl, ?_⟩
    unfold Host.Valid; rw [ht]; exact k2

theorem static_init_eq : static_init = Except.ok plugin_hooks_initial := by decide

theorem toLower_eq_dot (c : Char) (h : c.toLower = '.') : c = '.' := by
  unfold Char.toLower at h
  simp only at h
  split at h
  · next hn =>
    exfalso
    generalize c.toNat = n at hn h
    obtain ⟨h1, h2⟩ := hn
    interval_cases n <;> exact absurd h (by decide)
  · exact h

theorem char_toNat_sub_ne (a b : Char) (h : a ≠ b) : (a.toNat : Int) - (b.toNat : Int) ≠ 0 := by
  intro hc
  apply h
  have : a.toNat = b.toNat := by omega
  rw [← Char.ofNat_toNat a, ← Char.ofNat_toNat b, this]

theorem strncasecmp_so (a b c : Char) :
    strncasecmp [a, b, c] ".so".toList 3 = 0 ↔
      [a, b, c].map Char.toLower = ".so".toList := by
  have hd : ('.' : Char).toLower = '.' := by decide
  have hs : ('s' : Char).toLower = 's' := by decide
  have ho : ('o' : Char).toLower = 'o' := by decide
  show strncasecmp [a, b, c] ['.', 's', 'o'] 3 = 0 ↔
    [a.toLower, b.toLower, c.toLower] = ['.', 's', 'o']
  simp only [strncasecmp, hd, hs, ho]
  by_cases h1 : a.toLower = '.'
  · by_cases h2 : b.toLower = 's'
    · by_cases h3 : c.toLower = 'o'
      · simp [h1, h2, h3]
      · have : (c.toLower.toNat : Int) - 111 ≠ 0 := char_toNat_sub_ne _ 'o' h3
        simp [h1, h2, h3, this]
    · have : (b.toLower.toNat : Int) - 115 ≠ 0 := char_toNat_sub_ne _ 's' h2
      simp [h1, h2, this]
  · have : (a.toLower.toNat : Int) - 46 ≠ 0 := char_toNat_sub_ne _ '.' h1
    simp [h1, this]

theorem so_suffix_iff (l : List Char) (hlen : l.length > 3) :
    strncasecmp (l.drop (l.length - 3)) ".so".toList 3 = 0 ↔
      ∃ stem : List Char, l.map Char.toLower = stem ++ ".so".toList := by
  have ht : (l.drop (l.length - 3)).length = 3 := by
    rw [List.length_drop]; omega
  have hsplit : l = l.take (l.length - 3) ++ l.drop (l.length - 3) :=
    (List.take_append_drop _ _).symm
  generalize hdef : l.drop (l.length - 3) = t at ht hsplit
  match t, ht with
  | [a, b, c], _ =>
    rw [strncasecmp_so]
    constructor
    · intro h
      refine ⟨(l.take (l.length - 3)).map Char.toLower, ?_⟩
      rw [← h, ← List.map_append, ← hsplit]
    · rintro ⟨stem, h⟩
      have hl : (l.map Char.toLower).length = (stem ++ ".so".toList).length := by rw [h]
      have hstem : stem.length = l.length - 3 := by
        simp only [List.length_map, List.length_append] at hl
        have : (".so".toList).length = 3 := by decide
        omega
      have h2 : (l.map Char.toLower).drop (l.length - 3) = ".so".toList := by
        rw [h, ← hstem, List.drop_left]
      rw [← h2, ← List.map_drop, hdef]

theorem candidate_iff (de : dirent) (dl : String → PluginFile) (dir_path : String)
    (s : Host) :
    (de.candidate ↔
      (de.d_type = DT_REG ∧ de.d_name.toList.head? ≠ some '.' ∧ '/' ∉ de.d_name.toList ∧
        ends_with_so de.d_name)) ∧
    (de.candidate →
      load_plugins.scan dl dir_path [de] 0 s =
        load_single_plugin dl s (full_path dir_path de.d_name)) ∧
    (¬ de.candidate → load_plugins.scan dl dir_path [de] 0 s = Except.ok s) := by
  have hlen : de.d_name.length = de.d_name.toList.length := rfl
  refine ⟨?_, ?_, ?_⟩
  · unfold dirent.candidate ends_with_so
    rw [hlen]
    constructor
    · rintro ⟨h1, h2, h3⟩
      have ha : de.d_type = DT_REG := by
        by_contra hc; exact h1 (Or.inl hc)
      exact ⟨ha, fun hc => h1 (Or.inr (Or.inl hc)), fun hc => h1 (Or.inr (Or.inr hc)),
        (so_suffix_iff _ h2).mp h3⟩
    · rintro ⟨h1, h2, h3, stem, h4⟩
      have hgt : de.d_name.toList.length > 3 := by
        have hl : (de.d_name.toList.map Char.toLower).length =
            (stem ++ ".so".toList).length := by rw [h4]
        have h3len : (".so".toList).length = 3 := by decide
        simp only [List.length_map, List.length_append, h3len] at hl
        by_contra hc
        have hs : stem = [] := List.length_eq_zero.mp (by omega)
        rw [hs] at h4
        cases hd : de.d_name.toList with
        | nil => rw [hd] at hl; simp at hl
        | cons a rest =>
          rw [hd] at h4 h2
          simp only [List.map_cons, List.nil_append] at h4
          have ha : a.toLower = '.' := by
            have := congrArg List.head? h4
            simpa using this
          exact h2 (by rw [toLower_eq_dot a ha]; rfl)
      refine ⟨?_, hgt, (so_suffix_iff _ hgt).mpr ⟨stem, h4⟩⟩
      rintro (hc | hc | hc)
      · exact hc h1
      · exact h2 hc
      · exact h3 hc
  · intro hc
    rw [scan_eq_load_all]
    have : candidates [de] = [de] := by simp [candidates, hc]
    rw [this]
    simp only [MAX_PLUGINS, List.take, List.map, load_all]
    cases load_single_plugin dl s (full_path dir_path de.d_name) <;> rfl
  · intro hc
    rw [scan_eq_load_all]
    have : candidates [de] = [] := by simp [candidates, hc]
    rw [this]
    rfl

theorem invoker_calls {α : Type} (id : Nat) (s : Host) (args : α) (e : PluginHookData)
    (he : s.plugin_hooks[id]? = some e) (hb : e.count.toNat ≤ e.arr.length) :
    DEFINE_PLUGIN_API_HOOK.invoker id s args =
      Except.ok (e.callbacks.map (fun f => (f, args)), e.count) := by
  unfold DEFINE_PLUGIN_API_HOOK.invoker
  rw [he]
  dsimp only
  rw [calls_eq e.arr args e.count.toNat 0 [] (by omega)]
  simp [PluginHookData.callbacks]

theorem grows_refl (t : List PluginHookData) : grows t t :=
  ⟨rfl, fun _ e he => ⟨e, [], he, by simp, le_refl _, rfl, rfl⟩⟩

theorem grows_trans {t1 t2 t3 : List PluginHookData} (h12 : grows t1 t2) (h23 : grows t2 t3) :
    grows t1 t3 := by
  refine ⟨h23.1.trans h12.1, ?_⟩
  intro j e he
  obtain ⟨e2, m2, a1, a2, a3, a4, a5⟩ := h12.2 j e he
  obtain ⟨e3, m3, b1, b2, b3, b4, b5⟩ := h23.2 j e2 a1
  exact ⟨e3, m2 ++ m3, b1, by rw [b2, a2, List.append_assoc], le_trans a3 b3,
    b4.trans a4, b5.trans a5⟩

theorem load_hook_grows (s s' : Host) (hook : HookPair) (h : load_hook s hook = Except.ok s') :
    grows s.plugin_hooks s'.plugin_hooks := by
  unfold load_hook at h
  split at h
  · cases h
  · split at h
    · cases h
    · next hd hget =>
      split at h
      · cases h; exact grows_refl _
      · split at h
        · cases h; exact grows_refl _
        · split at h
          · next hlt hb =>
            cases h
            refine ⟨List.length_set _ _ _, ?_⟩
            intro j e he
            by_cases hj : hook.id.toNat = j
            · subst hj
              have heq : hd = e := by rw [hget] at he; exact Option.some.inj he
              subst heq
              have hin : hook.id.toNat < s.plugin_hooks.length := by
                by_contra hc
                rw [List.getElem?_eq_none (by omega)] at hget
                cases hget
              refine ⟨_, [hook.ptr], List.getElem?_set_self hin, ?_, ?_, rfl, rfl⟩
              · simp only [PluginHookData.callbacks]
                have h1 : (hd.count + 1).toNat = hd.count.toNat + 1 := by omega
                rw [h1, take_succ_set _ _ _ hb.2]
              · simp only; omega
            · refine ⟨e, [], ?_, by simp, le_refl _, rfl, rfl⟩
              simp only
              rw [List.getElem?_set_ne hj]
              exact he
          · cases h

theorem loop_grows (path : String) (hooks : List HookPair) (n : Nat) :
    ∀ (i : Nat) (loaded : Int) (s s' : Host) (loaded' : Int),
    load_single_plugin.loop path hooks n i loaded s = Except.ok (s', loaded') →
    grows s.plugin_hooks s'.plugin_hooks := by
  induction n with
  | zero =>
    intro i loaded s s' loaded' h
    simp only [load_single_plugin.loop, Except.ok.injEq, Prod.mk.injEq] at h
    obtain ⟨rfl, _⟩ := h
    exact grows_refl _
  | succ n ih =>
    intro i loaded s s' loaded' h
    unfold load_single_plugin.loop at h
    split at h
    · cases h
    · split at h
      · have hg := ih _ _ _ _ _ h
        exact hg
      · split at h
        · cases h
        · next s1 hl => exact grows_trans (load_hook_grows _ _ _ hl) (ih _ _ _ _ _ h)

theorem load_single_plugin_grows (dl : String → PluginFile) (s s' : Host) (path : String)
    (h : load_single_plugin dl s path = Except.ok s') :
    grows s.plugin_hooks s'.plugin_hooks := by
  unfold load_single_plugin at h
  dsimp only at h
  split at h
  · cases h; exact grows_refl _
  · cases h; exact grows_refl _
  · unfold load_single_plugin.register at h
    split at h
    · cases h; exact grows_refl _
    · split at h
      · cases h; exact grows_refl _
      · split at h
        · cases h
        · next s3 loaded hl =>
          cases h
          have hg := loop_grows _ _ _ _ _ _ _ _ hl
          exact hg

theorem load_all_grows (dl : String → PluginFile) (paths : List String) :
    ∀ s s' : Host, load_all dl s paths = Except.ok s' →
      grows s.plugin_hooks s'.plugin_hooks := by
  induction paths with
  | nil => intro s s' h; simp only [load_all] at h; cases h; exact grows_refl _
  | cons p rest ih =>
    intro s s' h
    simp only [load_all] at h
    split at h
    · cases h
    · next s1 h1 => exact grows_trans (load_single_plugin_grows _ _ _ _ h1) (ih _ _ h)

theorem load_plugins_grows (root : String) (d : Option (List dirent))
    (dl : String → PluginFile) (s s' : Host) (h : load_plugins root d dl s = Except.ok s') :
    grows s.plugin_hooks s'.plugin_hooks := by
  have hfit := load_plugins_ok_fits _ _ _ _ _ h
  have hno : ¬ (2100 ≤ (root ++ "/linux/plugins").utf8ByteSize) := by
    unfold root_fits at hfit; omega
  cases d with
  | none =>
    unfold load_plugins at h
    dsimp only at h
    rw [if_neg hno] at h
    cases h
    exact grows_refl _
  | some entries =>
    rw [load_plugins_eq_load_all _ _ _ _ hfit] at h
    have hg := load_all_grows _ _ _ _ h
    exact hg

theorem load_single_plugin_api (dl : String → PluginFile) (s s' : Host) (path : String)
    (h : load_single_plugin dl s path = Except.ok s') :
    s'.api_given = s.api_given ++ (if (dl path).exporting then [({} : FirmwareAPI)] else []) := by
  unfold load_single_plugin at h
  dsimp only at h
  split at h
  · next hdl => cases h; simp [hdl, PluginFile.exporting]
  · next hdl => cases h; simp [hdl, PluginFile.exporting]
  · next f hdl =>
    simp only [hdl, PluginFile.exporting, if_true]
    unfold load_single_plugin.register at h
    split at h
    · cases h; rfl
    · split at h
      · cases h; rfl
      · split at h
        · cases h
        · next s3 loaded hl =>
          cases h
          exact (loop_frame _ _ _ _ _ _ _ _ hl).2.1

theorem load_all_api (dl : String → PluginFile) (paths : List String) :
    ∀ s s' : Host, load_all dl s paths = Except.ok s' →
      s'.api_given = s.api_given ++
        List.replicate ((paths.filter (fun p => (dl p).exporting)).length)
          ({} : FirmwareAPI) := by
  induction paths with
  | nil => intro s s' h; simp only [load_all] at h; cases h; simp
  | cons p rest ih =>
    intro s s' h
    simp only [load_all] at h
    split at h
    · cases h
    · next s1 h1 =>
      rw [ih _ _ h, load_single_plugin_api _ _ _ _ h1]
      by_cases hp : (dl p).exporting
      · simp [hp, List.replicate_succ]
      · simp [hp]

theorem callbacks_length (e : PluginHookData) (h0 : 0 ≤ e.count)
    (hb : e.count.toNat ≤ e.arr.length) : (e.callbacks.length : Int) = e.count := by
  simp only [PluginHookData.callbacks, List.length_take]
  omega

theorem utf8Len_replicate_r (n : Nat) : String.utf8Len (List.replicate n 'r') = n := by
  induction n with
  | zero => rfl
  | succ n ih =>
    rw [List.replicate_succ, String.utf8Len_cons, ih]
    have : ('r' : Char).utf8Size = 1 := by decide
    rw [this]

theorem root_long_overflows (d : Option (List dirent)) (dl : String → PluginFile) (s : Host) :
    root_long.utf8ByteSize = 2086 ∧ ¬ root_fits root_long ∧
    load_plugins root_long d dl s = Except.error Fault.dir_path_oob := by
  have h1 : root_long.utf8ByteSize = 2086 := utf8Len_replicate_r 2086
  have h2 : (root_long ++ "/linux/plugins").utf8ByteSize = 2100 := by
    show String.utf8Len (List.replicate 2086 'r' ++ "/linux/plugins".data) = 2100
    rw [String.utf8Len_append, utf8Len_replicate_r]
    have : String.utf8Len "/linux/plugins".data = 14 := by decide
    rw [this]
  have h3 : ¬ root_fits root_long := by
    unfold root_fits; omega
  exact ⟨h1, h3, load_plugins_overflow _ _ _ _ h3⟩

/-! ## The claims -/

/-- C1: in every state reached from the initial registry by any sequence of calls of
`load_hook`, `load_single_plugin` (whatever `describe_hooks` returns) and `load_plugins`
(whatever the directory holds), extension point 0 has limit 5 and `0 ≤ count ≤ 5`,
extension point 1 has limit 1 and `0 ≤ count ≤ 1`, and no other entry is declared. -/
theorem count_le_capacity_reachable (ops : List Op) (s : Host)
    (h : run_ops Host.initial ops = Except.ok s) :
    (∃ e, s.plugin_hooks[0]? = some e ∧ e.name = some "plugin_handle_mister_cmd" ∧
      e.limit = 5 ∧ 0 ≤ e.count ∧ e.count ≤ 5) ∧
    (∃ e, s.plugin_hooks[1]? = some e ∧ e.name = some "plugin_test" ∧ e.limit = 1 ∧
      0 ≤ e.count ∧ e.count ≤ 1) ∧
    (∀ (j : Nat) (e : PluginHookData), s.plugin_hooks[j]? = some e → e.name ≠ none →
      j = 0 ∨ j = 1) :=
  inv_points _ (run_ops_inv ops Host.initial s inv_initial h)

/-- Witness of C1: the calls of `ops_example` fill both extension points. -/
theorem count_le_capacity_reachable_witness :
    run_ops Host.initial ops_example = Except.ok state_example ∧
    ((∃ e, state_example.plugin_hooks[0]? = some e ∧
        e.name = some "plugin_handle_mister_cmd" ∧ e.limit = 5 ∧ 0 ≤ e.count ∧ e.count ≤ 5) ∧
     (∃ e, state_example.plugin_hooks[1]? = some e ∧ e.name = some "plugin_test" ∧
        e.limit = 1 ∧ 0 ≤ e.count ∧ e.count ≤ 1) ∧
     (∀ (j : Nat) (e : PluginHookData), state_example.plugin_hooks[j]? = some e →
        e.name ≠ none → j = 0 ∨ j = 1)) :=
  ⟨by decide, count_le_capacity_reachable ops_example state_example (by decide)⟩

/-- C2: in a well-formed registry (64 entries, every declared entry with
`0 ≤ count ≤ limit` and a backing array of `limit` slots), for a hook with
`0 ≤ id < 64`, `load_hook` returns; the callback is registered (the list of the point
becomes the old list with the callback at the tail and the count grows by one) if and
only if the id names a declared point whose count is below its limit; when it is
registered, name and limit are kept and every other entry is unchanged; when it is
not, the whole table is unchanged. -/
theorem load_hook_append (s : Host) (hook : HookPair) (hv : s.Valid)
    (hid : 0 ≤ hook.id ∧ hook.id < 64) :
    ∃ e s', s.plugin_hooks[hook.id.toNat]? = some e ∧ load_hook s hook = Except.ok s' ∧
      ((∃ e', s'.plugin_hooks[hook.id.toNat]? = some e' ∧
          e'.callbacks = e.callbacks ++ [hook.ptr] ∧ e'.count = e.count + 1) ↔
        (e.name ≠ none ∧ e.count < e.limit)) ∧
      ((e.name ≠ none ∧ e.count < e.limit) →
        (∃ e', s'.plugin_hooks[hook.id.toNat]? = some e' ∧ e'.name = e.name ∧
          e'.limit = e.limit) ∧
        (∀ j : Nat, j ≠ hook.id.toNat → s'.plugin_hooks[j]? = s.plugin_hooks[j]?)) ∧
      (¬ (e.name ≠ none ∧ e.count < e.limit) → s'.plugin_hooks = s.plugin_hooks) := by
  obtain ⟨e, s', h1, h2, h3, _, _⟩ := load_hook_table_of_valid s hook hv hid
  have hlt : hook.id.toNat < s.plugin_hooks.length := by
    have := hv.1; omega
  have hev : e.Valid := hv.2 e (List.getElem?_mem h1)
  have hnew : s'.plugin_hooks[hook.id.toNat]? = some (e.offer hook.ptr) := by
    rw [h3, List.getElem?_set_self hlt]
  refine ⟨e, s', h1, h2, ?_, ?_, ?_⟩
  · constructor
    · rintro ⟨e', g1, g2, g3⟩
      rw [hnew] at g1
      cases g1
      by_contra hc
      have : e.offer hook.ptr = e := by
        unfold PluginHookData.offer
        by_cases hn : e.name = none
        · rw [if_pos hn]
        · have hge : e.count ≥ e.limit := by
            by_contra h'
            exact hc ⟨hn, by omega⟩
          rw [if_neg hn, if_pos hge]
      rw [this] at g3
      omega
    · rintro ⟨hn, hc⟩
      obtain ⟨_, _, _, a4, a5⟩ := offer_spec e hook.ptr hev hn
      obtain ⟨h0, hle, hlen⟩ := hev hn
      refine ⟨_, hnew, ?_, by rw [a5]; omega⟩
      rw [a4, List.take_of_length_le]
      simp only [PluginHookData.callbacks, List.length_append, List.length_take,
        List.length_singleton]
      omega
  · rintro ⟨hn, hc⟩
    obtain ⟨a1, a2, _, _, _⟩ := offer_spec e hook.ptr hev hn
    refine ⟨⟨_, hnew, a1, a2⟩, ?_⟩
    intro j hj
    rw [h3, List.getElem?_set_ne (Ne.symm hj)]
  · intro hc
    have : e.offer hook.ptr = e := by
      unfold PluginHookData.offer
      by_cases hn : e.name = none
      · rw [if_pos hn]
      · have hge : e.count ≥ e.limit := by
          by_contra h'
          exact hc ⟨hn, by omega⟩
        rw [if_neg hn, if_pos hge]
    rw [h3, this]
    exact set_same_of_getElem? _ _ _ h1

/-- Witness of C2: the initial registry is well formed and `hook_example` is in range. -/
theorem load_hook_append_witness :
    Host.initial.Valid ∧ (0 ≤ hook_example.id ∧ hook_example.id < 64) ∧
    ∃ e s', Host.initial.plugin_hooks[hook_example.id.toNat]? = some e ∧
      load_hook Host.initial hook_example = Except.ok s' ∧
      ((∃ e', s'.plugin_hooks[hook_example.id.toNat]? = some e' ∧
          e'.callbacks = e.callbacks ++ [hook_example.ptr] ∧ e'.count = e.count + 1) ↔
        (e.name ≠ none ∧ e.count < e.limit)) ∧
      ((e.name ≠ none ∧ e.count < e.limit) →
        (∃ e', s'.plugin_hooks[hook_example.id.toNat]? = some e' ∧ e'.name = e.name ∧
          e'.limit = e.limit) ∧
        (∀ j : Nat, j ≠ hook_example.id.toNat →
          s'.plugin_hooks[j]? = Host.initial.plugin_hooks[j]?)) ∧
      (¬ (e.name ≠ none ∧ e.count < e.limit) →
        s'.plugin_hooks = Host.initial.plugin_hooks) :=
  ⟨by decide, by decide, load_hook_append Host.initial hook_example (by decide) (by decide)⟩

/-- C3: in a registry with its 64 entries, for a hook with `0 ≤ id < 64` whose id
names no declared point, or names a point whose count has reached its limit,
`load_hook` returns normally and the table, the list of opened paths and the list of
API values are exactly as before (only a diagnostic line is written). -/
theorem load_hook_drop (s : Host) (hook : HookPair) (hsz : s.plugin_hooks.length = 64)
    (hid : 0 ≤ hook.id ∧ hook.id < 64)
    (hdrop : ∀ e, s.plugin_hooks[hook.id.toNat]? = some e → e.name = none ∨ e.limit ≤ e.count) :
    ∃ s', load_hook s hook = Except.ok s' ∧ s'.plugin_hooks = s.plugin_hooks ∧
      s'.dlopened = s.dlopened ∧ s'.api_given = s.api_given := by
  have hlt : hook.id.toNat < s.plugin_hooks.length := by omega
  have hget : s.plugin_hooks[hook.id.toNat]? = some s.plugin_hooks[hook.id.toNat] :=
    List.getElem?_eq_getElem hlt
  have h1 : ¬ (hook.id < 0 ∨ MAX_PLUGIN_HOOKS ≤ hook.id) := by
    simp only [MAX_PLUGIN_HOOKS]; omega
  have hd := hdrop _ hget
  generalize s.plugin_hooks[hook.id.toNat] = e at hget hd
  obtain ⟨name, count, arr, limit⟩ := e
  cases name with
  | none => simp [load_hook, h1, hget]
  | some nm =>
    have hc : count ≥ limit := by simpa using hd
    simp [load_hook, h1, hget, hc]

/-- Witness of C3: in `state_example` extension point 1 is full, and a further hook
for it is dropped. -/
theorem load_hook_drop_witness :
    state_example.plugin_hooks.length = 64 ∧
    (0 ≤ hook_example_test.id ∧ hook_example_test.id < 64) ∧
    (∀ e, state_example.plugin_hooks[hook_example_test.id.toNat]? = some e →
      e.name = none ∨ e.limit ≤ e.count) ∧
    ∃ s', load_hook state_example hook_example_test = Except.ok s' ∧
      s'.plugin_hooks = state_example.plugin_hooks ∧
      s'.dlopened = state_example.dlopened ∧ s'.api_given = state_example.api_given :=
  have hd : ∀ e, state_example.plugin_hooks[hook_example_test.id.toNat]? = some e →
      e.name = none ∨ e.limit ≤ e.count := by
    intro e he
    have h1 : state_example.plugin_hooks[hook_example_test.id.toNat]? =
        some { name := some "plugin_test", count := 1, arr := [21], limit := 1 } := by decide
    rw [h1] at he
    cases he
    exact Or.inr (by decide)
  ⟨by decide, by decide, hd,
    load_hook_drop state_example hook_example_test (by decide) (by decide) hd⟩

/-- C4 as stated fails: one plugin offering six callbacks for id 0 (a directory with
one candidate) leaves five of them registered, not the six of its hook list. -/
theorem registration_order_counterexample :
    (candidates dir_one).length ≤ 8 ∧
    registered (load_plugins "/media/fat" (some dir_one) dl_eight Host.initial) 0 ≠
      some (ptrs_for 0 (directory_offers "/media/fat" dir_one dl_eight)) ∧
    registered (load_plugins "/media/fat" (some dir_one) dl_eight Host.initial) 0 =
      some [11, 12, 13, 14, 15] ∧
    ptrs_for 0 (directory_offers "/media/fat" dir_one dl_eight) = [11, 12, 13, 14, 15, 16] := by
  decide

/-- C4, amended: from the initial registry, when the path of the plugin directory fits
the buffer `dir_path`, for a directory with at most 8 candidate files whose plugins
return arrays as long as their count says, `load_plugins` returns and the callback list
of each extension point is the first `capacity` elements (5 for id 0, 1 for id 1) of
the concatenation, in enumeration order of the plugins, of each validated plugin's
hooks for that point in the order of its array; when no more than `capacity` hooks are
offered for a point, its list is that whole concatenation. -/
theorem registration_order (root : String) (entries : List dirent) (dl : String → PluginFile)
    (hfit : root_fits root) (hc : (candidates entries).length ≤ 8)
    (hb : ∀ de ∈ candidates entries, (dl (full_path (plugins_dir root) de.d_name)).InBounds) :
    registered (load_plugins root (some entries) dl Host.initial) 0 =
      some ((ptrs_for 0 (directory_offers root entries dl)).take 5) ∧
    registered (load_plugins root (some entries) dl Host.initial) 1 =
      some ((ptrs_for 1 (directory_offers root entries dl)).take 1) ∧
    ((ptrs_for 0 (directory_offers root entries dl)).length ≤ 5 →
      registered (load_plugins root (some entries) dl Host.initial) 0 =
        some (ptrs_for 0 (directory_offers root entries dl))) ∧
    ((ptrs_for 1 (directory_offers root entries dl)).length ≤ 1 →
      registered (load_plugins root (some entries) dl Host.initial) 1 =
        some (ptrs_for 1 (directory_offers root entries dl))) := by
  have hload := load_plugins_eq_load_all root entries dl Host.initial hfit
  rw [List.take_of_length_le hc] at hload
  have hpaths : ((candidates entries).map
      (fun de => full_path (plugins_dir root) de.d_name)).map dl =
      (candidates entries).map (fun de => dl (full_path (plugins_dir root) de.d_name)) := by
    rw [List.map_map]; rfl
  have hb' : ∀ p ∈ (candidates entries).map (fun de => full_path (plugins_dir root) de.d_name),
      (dl p).InBounds := by
    intro p hp
    obtain ⟨de, hde, rfl⟩ := List.mem_map.mp hp
    exact hb de hde
  have hv : Host.Valid { Host.initial with stderr := Host.initial.stderr ++ [Diag.loading_plugins] } :=
    inv_initial.1
  obtain ⟨s0, e0, a1, _, a3, _, _, a6, _⟩ := registered_load_all dl _ _ 0
    { name := some "plugin_handle_mister_cmd", count := 0, arr := [0, 0, 0, 0, 0], limit := 5 }
    hv hb' rfl (by simp)
  obtain ⟨s1, e1, b1, _, b3, _, _, b6, _⟩ := registered_load_all dl _ _ 1
    { name := some "plugin_test", count := 0, arr := [0], limit := 1 }
    hv hb' rfl (by simp)
  rw [hpaths] at a6 b6
  have r0 : registered (load_plugins root (some entries) dl Host.initial) 0 =
      some ((ptrs_for 0 (directory_offers root entries dl)).take 5) := by
    rw [hload, a1]
    simp only [registered, a3, Option.map_some', a6]
    rfl
  have r1 : registered (load_plugins root (some entries) dl Host.initial) 1 =
      some ((ptrs_for 1 (directory_offers root entries dl)).take 1) := by
    rw [hload, b1]
    simp only [registered, b3, Option.map_some', b6]
    rfl
  refine ⟨r0, r1, ?_, ?_⟩
  · intro hle; rw [r0, List.take_of_length_le hle]
  · intro hle; rw [r1, List.take_of_length_le hle]

/-- Witness of C4 (amended): the directory `dir_one` with the plugin `describe_eight`. -/
theorem registration_order_witness :
    root_fits "/media/fat" ∧
    (candidates dir_one).length ≤ 8 ∧
    (∀ de ∈ candidates dir_one,
      (dl_eight (full_path (plugins_dir "/media/fat") de.d_name)).InBounds) ∧
    registered (load_plugins "/media/fat" (some dir_one) dl_eight Host.initial) 0 =
      some ((ptrs_for 0 (directory_offers "/media/fat" dir_one dl_eight)).take 5) ∧
    registered (load_plugins "/media/fat" (some dir_one) dl_eight Host.initial) 1 =
      some ((ptrs_for 1 (directory_offers "/media/fat" dir_one dl_eight)).take 1) :=
  have h := registration_order "/media/fat" dir_one dl_eight (by decide) (by decide)
    (by decide)
  ⟨by decide, by decide, by decide, h.1, h.2.1⟩

/-- C5: from the initial registry, after loading any sequence of plugins (returning
arrays as long as their count says) whose offers hold more than 5 hooks for id 0, point
0 ends with count 5 and holds the first 5 callbacks offered for it, in offer order; a
further offer for it leaves the table unchanged; and `plugin_handle_mister_cmd` calls
exactly those 5 callbacks, once each, in that order, and returns 5. The same holds for
id 1 with capacity 1 and `plugin_test`. -/
theorem capacity_saturation (dl : String → PluginFile) (paths : List String) (cmd : Ptr)
    (hb : ∀ p ∈ paths, (dl p).InBounds) :
    (5 < (ptrs_for 0 (all_offers (paths.map dl))).length →
      ∃ s e, load_all dl Host.initial paths = Except.ok s ∧ s.plugin_hooks[0]? = some e ∧
        e.count = 5 ∧ e.callbacks = (ptrs_for 0 (all_offers (paths.map dl))).take 5 ∧
        e.callbacks.length = 5 ∧
        (∀ ptr, table (load_hook s { id := 0, ptr := ptr }) = Except.ok s.plugin_hooks) ∧
        plugin_handle_mister_cmd s cmd =
          Except.ok (((ptrs_for 0 (all_offers (paths.map dl))).take 5).map
            (fun f => (f, cmd)), 5)) ∧
    (1 < (ptrs_for 1 (all_offers (paths.map dl))).length →
      ∃ s e, load_all dl Host.initial paths = Except.ok s ∧ s.plugin_hooks[1]? = some e ∧
        e.count = 1 ∧ e.callbacks = (ptrs_for 1 (all_offers (paths.map dl))).take 1 ∧
        e.callbacks.length = 1 ∧
        (∀ ptr, table (load_hook s { id := 1, ptr := ptr }) = Except.ok s.plugin_hooks) ∧
        plugin_test s =
          Except.ok (((ptrs_for 1 (all_offers (paths.map dl))).take 1).map
            (fun f => (f, ())), 1)) := by
  have hv : Host.initial.Valid := inv_initial.1
  constructor
  · intro hlen
    obtain ⟨s, e, a1, a2, a3, a4, a5, a6, a7⟩ := registered_load_all dl paths Host.initial 0
      { name := some "plugin_handle_mister_cmd", count := 0, arr := [0, 0, 0, 0, 0], limit := 5 }
      hv hb rfl (by simp)
    have hcount : e.count = 5 := by
      rw [a7]
      dsimp only
      push_cast
      omega
    have hcb : e.callbacks = (ptrs_for 0 (all_offers (paths.map dl))).take 5 := by
      rw [a6]; rfl
    have hne : e.name ≠ none := by rw [a4]; simp
    refine ⟨s, e, a1, a3, hcount, hcb, ?_, ?_, ?_⟩
    · rw [hcb, List.length_take]; omega
    · intro ptr
      obtain ⟨s', g1, g2, _, _⟩ := load_hook_dropped s { id := 0, ptr := ptr } a2.1
        ⟨by show (0 : Int) ≥ 0; decide, by show (0 : Int) < 64; decide⟩
        (by
          intro e' he'
          have : e' = e := by
            have h0 : s.plugin_hooks[0]? = some e' := he'
            rw [a3] at h0; exact (Option.some.inj h0).symm
          rw [this, a5, hcount]
          exact Or.inr (le_refl _))
      rw [g1, ← g2]; rfl
    · unfold plugin_handle_mister_cmd
      rw [invoker_eq 0 s cmd e a3 (a2.2 e (List.getElem?_mem a3)) hne, hcb, hcount]
  · intro hlen
    obtain ⟨s, e, a1, a2, a3, a4, a5, a6, a7⟩ := registered_load_all dl paths Host.initial 1
      { name := some "plugin_test", count := 0, arr := [0], limit := 1 }
      hv hb rfl (by simp)
    have hcount : e.count = 1 := by
      rw [a7]
      dsimp only
      push_cast
      omega
    have hcb : e.callbacks = (ptrs_for 1 (all_offers (paths.map dl))).take 1 := by
      rw [a6]; rfl
    have hne : e.name ≠ none := by rw [a4]; simp
    refine ⟨s, e, a1, a3, hcount, hcb, ?_, ?_, ?_⟩
    · rw [hcb, List.length_take]; omega
    · intro ptr
      obtain ⟨s', g1, g2, _, _⟩ := load_hook_dropped s { id := 1, ptr := ptr } a2.1
        ⟨by show (1 : Int) ≥ 0; decide, by show (1 : Int) < 64; decide⟩
        (by
          intro e' he'
          have : e' = e := by
            have h0 : s.plugin_hooks[1]? = some e' := he'
            rw [a3] at h0; exact (Option.some.inj h0).symm
          rw [this, a5, hcount]
          exact Or.inr (le_refl _))
      rw [g1, ← g2]; rfl
    · unfold plugin_test
      rw [invoker_eq 1 s () e a3 (a2.2 e (List.getElem?_mem a3)) hne, hcb, hcount]

/-- Witness of C5: the plugin `describe_eight` offers 6 hooks for id 0 and 2 for
id 1; point 0 ends with count 5 and point 1 with count 1. -/
theorem capacity_saturation_witness :
    (∀ p ∈ ["a.so"], (dl_eight p).InBounds) ∧
    (ptrs_for 0 (all_offers (["a.so"].map dl_eight))).length = 6 ∧
    (ptrs_for 1 (all_offers (["a.so"].map dl_eight))).length = 2 ∧
    (∃ s e, load_all dl_eight Host.initial ["a.so"] = Except.ok s ∧
        s.plugin_hooks[0]? = some e ∧
        e.count = 5 ∧ e.callbacks = (ptrs_for 0 (all_offers (["a.so"].map dl_eight))).take 5 ∧
        e.callbacks.length = 5 ∧
        (∀ ptr, table (load_hook s { id := 0, ptr := ptr }) = Except.ok s.plugin_hooks) ∧
        plugin_handle_mister_cmd s 500 =
          Except.ok (((ptrs_for 0 (all_offers (["a.so"].map dl_eight))).take 5).map
            (fun f => (f, 500)), 5)) ∧
    (∃ s e, load_all dl_eight Host.initial ["a.so"] = Except.ok s ∧
        s.plugin_hooks[1]? = some e ∧
        e.count = 1 ∧ e.callbacks = (ptrs_for 1 (all_offers (["a.so"].map dl_eight))).take 1 ∧
        e.callbacks.length = 1 ∧
        (∀ ptr, table (load_hook s { id := 1, ptr := ptr }) = Except.ok s.plugin_hooks) ∧
        plugin_test s =
          Except.ok (((ptrs_for 1 (all_offers (["a.so"].map dl_eight))).take 1).map
            (fun f => (f, ())), 1)) :=
  have h := capacity_saturation dl_eight ["a.so"] 500 (by decide)
  ⟨by decide, by decide, by decide, h.1 (by decide), h.2 (by decide)⟩

/-- C6 fails on the code: for the plugin `describe_eight` (six hooks for id 0, two for
id 1) loaded into the initial registry, the line printed is "loaded with 8 hooks" while
the number of registered callbacks grows by 6. -/
theorem loaded_count_overstates :
    ∃ s, load_single_plugin dl_eight Host.initial "a.so" = Except.ok s ∧
      reported_loaded s = some 8 ∧
      total_registered s - total_registered Host.initial = 6 := by
  have h1 : (match load_single_plugin dl_eight Host.initial "a.so" with
      | Except.error _ => none
      | Except.ok s => some (reported_loaded s, total_registered s)) = some (some 8, 6) := by
    decide
  cases h : load_single_plugin dl_eight Host.initial "a.so" with
  | error f => rw [h] at h1; cases h1
  | ok s =>
    rw [h] at h1
    simp only [Option.some.injEq, Prod.mk.injEq] at h1
    exact ⟨s, rfl, h1.1, by rw [h1.2]; decide⟩

/-- C7: for every state, when `describe_hooks` returns a non-null array with a count
in `[1, 64]` (and at least that many entries), `load_single_plugin` gives the same
table, or the same fault, as loading the plugin that returns the same hook list with
the entries whose id is outside `[0, 64)` removed. -/
theorem invalid_id_skipped (dl : String → PluginFile) (s : Host) (path : String)
    (f : FirmwareAPI → DescribeResult) (arr : List HookPair)
    (hdl : dl path = PluginFile.exports f) (hh : (f {}).hooks = some arr)
    (hc : 1 ≤ (f {}).hooks_count ∧ (f {}).hooks_count ≤ 64)
    (hb : (f {}).hooks_count.toNat ≤ arr.length) :
    table (load_single_plugin dl s path) =
      table (load_single_plugin (dl_returning (in_range_entries arr (f {}).hooks_count))
        s path) := by
  rw [load_single_plugin_table, load_single_plugin_table, hdl]
  simp only [dl_returning, file_table, register_table, hh]
  have hnot : ¬ ((f {}).hooks_count ≤ 0 ∨ (f {}).hooks_count > MAX_PLUGIN_HOOKS) := by
    simp only [MAX_PLUGIN_HOOKS]; omega
  have hl : (in_range_entries arr (f {}).hooks_count).length ≤ 64 := by
    unfold in_range_entries
    refine le_trans (List.length_filter_le _ _) ?_
    rw [List.length_take]; omega
  have ho1 : offers_of (some arr) (f {}).hooks_count =
      in_range_entries arr (f {}).hooks_count := by
    simp only [offers_of, if_neg hnot]; rfl
  have ho2 : offers_of (some (in_range_entries arr (f {}).hooks_count))
      ((in_range_entries arr (f {}).hooks_count).length : Int) =
      in_range_entries arr (f {}).hooks_count := by
    unfold offers_of
    dsimp only
    split
    · next hz =>
      have : (in_range_entries arr (f {}).hooks_count).length = 0 := by
        simp only [MAX_PLUGIN_HOOKS] at hz; omega
      exact (List.length_eq_zero.mp this).symm
    · rw [Int.toNat_ofNat, List.take_length]
      unfold in_range_entries
      rw [List.filter_filter]
      simp
  have hb1 : in_bounds (some arr) (f {}).hooks_count := Or.inr hb
  have hb2 : in_bounds (some (in_range_entries arr (f {}).hooks_count))
      ((in_range_entries arr (f {}).hooks_count).length : Int) := by
    refine Or.inr ?_
    rw [Int.toNat_ofNat]
  rw [ho1, ho2]
  simp only [hb1, hb2, if_true]

/-- Witness of C7: the plugin `describe_two` on the initial registry leaves id 0 with
count 1 holding callback 7 and every other array as it was (callback 8, offered for
id 99, is in none), and prints "loaded with 1 hooks". -/
theorem invalid_id_skipped_witness :
    dl_two "a.so" = PluginFile.exports describe_two ∧
    (describe_two {}).hooks = some [⟨0, 7⟩, ⟨99, 8⟩] ∧
    (1 ≤ (describe_two {}).hooks_count ∧ (describe_two {}).hooks_count ≤ 64) ∧
    (describe_two {}).hooks_count.toNat ≤ [(⟨0, 7⟩ : HookPair), ⟨99, 8⟩].length ∧
    table (load_single_plugin dl_two Host.initial "a.so") =
      table (load_single_plugin
        (dl_returning (in_range_entries [⟨0, 7⟩, ⟨99, 8⟩] (describe_two {}).hooks_count))
        Host.initial "a.so") ∧
    in_range_entries [⟨0, 7⟩, ⟨99, 8⟩] (describe_two {}).hooks_count = [⟨0, 7⟩] ∧
    table (load_single_plugin dl_two Host.initial "a.so") = Except.ok
      ({ name := some "plugin_handle_mister_cmd", count := 1, arr := [7, 0, 0, 0, 0],
         limit := 5 } ::
       { name := some "plugin_test", count := 0, arr := [0], limit := 1 } ::
       List.replicate 62 { name := none, count := 0, arr := [], limit := 0 }) ∧
    (load_single_plugin dl_two Host.initial "a.so").toOption.map reported_loaded =
      some (some 1) :=
  ⟨rfl, rfl, by decide, by decide,
    invalid_id_skipped dl_two Host.initial "a.so" describe_two [⟨0, 7⟩, ⟨99, 8⟩] rfl rfl
      (by decide) (by decide),
    by decide, by decide, by decide⟩

/-- C8: when the entry call returns a null array, or a count `≤ 0`, or a count `> 64`,
and only then, `load_single_plugin` ends on the line "did not return a valid hooks
array" with the table unchanged (whatever ids the array holds); a non-null array with
a count in `[1, 64]` passes the check: every result then ends with the line "loaded
with %d hooks". -/
theorem malformed_result_rejected (dl : String → PluginFile) (s : Host) (path : String)
    (f : FirmwareAPI → DescribeResult) (hdl : dl path = PluginFile.exports f) :
    (((f {}).hooks = none ∨ (f {}).hooks_count ≤ 0 ∨ (f {}).hooks_count > 64) ↔
      load_single_plugin dl s path = Except.ok
        { plugin_hooks := s.plugin_hooks,
          stderr := s.stderr ++ [Diag.no_valid_hooks_array path (f {}).hooks_count],
          dlopened := s.dlopened ++ [path],
          api_given := s.api_given ++ [{}] }) ∧
    (∀ arr, (f {}).hooks = some arr → 1 ≤ (f {}).hooks_count → (f {}).hooks_count ≤ 64 →
      ∀ s', load_single_plugin dl s path = Except.ok s' →
        ∃ n, s'.stderr.getLast? = some (Diag.loaded_with path n)) := by
  have hpass : ∀ arr, (f {}).hooks = some arr → 1 ≤ (f {}).hooks_count →
      (f {}).hooks_count ≤ 64 →
      ∀ s', load_single_plugin dl s path = Except.ok s' →
        ∃ n, s'.stderr.getLast? = some (Diag.loaded_with path n) := by
    intro arr harr h1 h64 s' hs'
    unfold load_single_plugin at hs'
    rw [hdl] at hs'
    dsimp only at hs'
    unfold load_single_plugin.register at hs'
    rw [harr] at hs'
    dsimp only at hs'
    have hnot : ¬ ((f {}).hooks_count ≤ 0 ∨ (f {}).hooks_count > MAX_PLUGIN_HOOKS) := by
      simp only [MAX_PLUGIN_HOOKS]; omega
    rw [if_neg hnot] at hs'
    split at hs'
    · cases hs'
    · next s3 loaded _ =>
      cases hs'
      exact ⟨loaded, by simp⟩
  refine ⟨⟨?_, ?_⟩, hpass⟩
  · intro hmal
    unfold load_single_plugin
    rw [hdl]
    dsimp only
    unfold load_single_plugin.register
    cases harr : (f {}).hooks with
    | none => rfl
    | some arr =>
      have hc : (f {}).hooks_count ≤ 0 ∨ (f {}).hooks_count > MAX_PLUGIN_HOOKS := by
        rcases hmal with h | h | h
        · rw [harr] at h; cases h
        · exact Or.inl h
        · exact Or.inr h
      dsimp only
      rw [if_pos hc]
  · intro hres
    by_contra hmal
    cases harr : (f {}).hooks with
    | none => exact hmal (Or.inl harr)
    | some arr =>
      have h1 : 1 ≤ (f {}).hooks_count := by
        by_contra hc; exact hmal (Or.inr (Or.inl (by omega)))
      have h64 : (f {}).hooks_count ≤ 64 := by
        by_contra hc; exact hmal (Or.inr (Or.inr (by omega)))
      obtain ⟨n, hn⟩ := hpass arr harr h1 h64 _ hres
      simp at hn

/-- Witness of C8: a count of 65 is rejected although the array holds a hook for
id 0; the table stays the initial one. -/
theorem malformed_result_rejected_witness :
    dl_too_many "a.so" = PluginFile.exports describe_too_many ∧
    (describe_too_many {}).hooks_count > 64 ∧
    load_single_plugin dl_too_many Host.initial "a.so" = Except.ok
      { plugin_hooks := Host.initial.plugin_hooks,
        stderr := Host.initial.stderr ++
          [Diag.no_valid_hooks_array "a.so" (describe_too_many {}).hooks_count],
        dlopened := Host.initial.dlopened ++ ["a.so"],
        api_given := Host.initial.api_given ++ [{}] } :=
  ⟨rfl, by decide,
    (malformed_result_rejected dl_too_many Host.initial "a.so" describe_too_many rfl).1.mp
      (Or.inr (Or.inr (by decide)))⟩

/-- C9 as stated fails. First, by the process-global symbol resolution: `lib.so` lacks
`describe_hooks` but stays loaded, and `p.so` opens only while `lib.so` is loaded, so
the registry obtained with `lib.so` in the directory holds the hook of `p.so` and the
one obtained without it does not. Second, in `dir_nine` the file `bad.so` cannot be
opened, yet it takes one of the 8 places, so `z.so` is never loaded; without `bad.so`
in the directory `z.so` is loaded and registers its hook. -/
theorem skip_failed_plugin_counterexample :
    ((dl_with_lib (full_path (plugins_dir "/media/fat") "lib.so")).unusable ∧
      (candidates dir_lib).length = 2 ∧
      registered (load_plugins "/media/fat" (some dir_lib) dl_with_lib Host.initial) 0 =
        some [7] ∧
      registered (load_plugins "/media/fat" (some dir_lib.tail) dl_without_lib
        Host.initial) 0 = some []) ∧
    (dl_nine (full_path (plugins_dir "/media/fat") "bad.so") =
        PluginFile.open_fails "cannot open" ∧
      table (load_plugins "/media/fat" (some dir_nine) dl_nine Host.initial) ≠
        table (load_plugins "/media/fat" (some dir_nine.tail) dl_nine Host.initial) ∧
      registered (load_plugins "/media/fat" (some dir_nine) dl_nine Host.initial) 0 =
        some [] ∧
      registered (load_plugins "/media/fat" (some dir_nine.tail) dl_nine Host.initial) 0 =
        some [7]) :=
  ⟨⟨by decide, by decide, by decide, by decide⟩, ⟨rfl, by decide, by decide, by decide⟩⟩

/-- C9, amended: a plugin file that does not open, or lacks `describe_hooks`, leaves
the table as it was; and for a directory with at most 8 candidate files, every
candidate, those enumerated after that file included, is passed to `dlopen`; and when
the dynamic loader finds the same thing at every other candidate file with that file
absent (`dl'`) as with it present (`dl`), the final table (or fault) is the one
obtained from the directory without that file. -/
theorem skip_failed_plugin (root : String) (pre post : List dirent) (bad : dirent)
    (dl dl' : String → PluginFile) (s : Host)
    (hbad : (dl (full_path (plugins_dir root) bad.d_name)).unusable)
    (hc : (candidates (pre ++ bad :: post)).length ≤ 8)
    (hsame : ∀ de ∈ candidates (pre ++ post),
      dl' (full_path (plugins_dir root) de.d_name) =
        dl (full_path (plugins_dir root) de.d_name)) :
    (∀ s0 : Host, table (load_single_plugin dl s0 (full_path (plugins_dir root) bad.d_name)) =
      Except.ok s0.plugin_hooks) ∧
    (∀ s', load_plugins root (some (pre ++ bad :: post)) dl s = Except.ok s' →
      s'.dlopened = s.dlopened ++ (candidates (pre ++ bad :: post)).map
        (fun de => full_path (plugins_dir root) de.d_name)) ∧
    table (load_plugins root (some (pre ++ bad :: post)) dl s) =
      table (load_plugins root (some (pre ++ post)) dl' s) := by
  have hc2 : (candidates (pre ++ post)).length ≤ 8 := by
    rw [candidates_append, candidates_cons] at hc
    rw [candidates_append]
    simp only [List.length_append] at hc ⊢
    omega
  have hmap : ((candidates (pre ++ post)).map
      (fun de => full_path (plugins_dir root) de.d_name)).map dl' =
      ((candidates (pre ++ post)).map
        (fun de => full_path (plugins_dir root) de.d_name)).map dl := by
    rw [List.map_map, List.map_map]
    apply List.map_congr_left
    intro de hde
    exact hsame de hde
  refine ⟨?_, ?_, ?_⟩
  · intro s0
    rw [load_single_plugin_table, file_table_unusable _ _ hbad]
  · intro s' hs'
    rw [load_plugins_eq_load_all _ _ _ _ (load_plugins_ok_fits _ _ _ _ _ hs'),
      List.take_of_length_le hc] at hs'
    have hfr := load_all_frame _ _ _ _ hs'
    exact hfr
  · by_cases hfit : root_fits root
    · rw [load_plugins_eq_load_all _ _ _ _ hfit, load_plugins_eq_load_all _ _ _ _ hfit,
        List.take_of_length_le hc, List.take_of_length_le hc2, load_all_table,
        load_all_table, hmap]
      dsimp only
      rw [candidates_append, candidates_append, candidates_cons]
      simp only [List.map_append, files_table_append]
      cases files_table s.plugin_hooks (List.map dl
        (List.map (fun de => full_path (plugins_dir root) de.d_name) (candidates pre))) with
      | error f => rfl
      | ok t1 =>
        dsimp only
        by_cases hcand : bad.candidate
        · simp only [if_pos hcand, List.map_cons, List.map_nil, files_table,
            file_table_unusable _ _ hbad]
        · simp only [if_neg hcand, List.map_nil, files_table]
    · rw [load_plugins_overflow _ _ _ _ hfit, load_plugins_overflow _ _ _ _ hfit]

/-- Witness of C9 (amended): in `dir_eight` the file `bad.so` fails to open, the other
files load the same with or without it, and the seven files after it are all opened. -/
theorem skip_failed_plugin_witness :
    (dl_nine (full_path (plugins_dir "/media/fat") "bad.so")).unusable ∧
    (candidates ([] ++ (⟨DT_REG, "bad.so"⟩ : dirent) :: dir_eight.tail)).length ≤ 8 ∧
    (∀ s', load_plugins "/media/fat" (some ([] ++ ⟨DT_REG, "bad.so"⟩ :: dir_eight.tail))
        dl_nine Host.initial = Except.ok s' →
      s'.dlopened = Host.initial.dlopened ++
        (candidates ([] ++ (⟨DT_REG, "bad.so"⟩ : dirent) :: dir_eight.tail)).map
          (fun de => full_path (plugins_dir "/media/fat") de.d_name)) ∧
    table (load_plugins "/media/fat" (some ([] ++ ⟨DT_REG, "bad.so"⟩ :: dir_eight.tail))
        dl_nine Host.initial) =
      table (load_plugins "/media/fat" (some ([] ++ dir_eight.tail)) dl_nine Host.initial) ∧
    (load_plugins "/media/fat" (some dir_eight) dl_nine Host.initial).toOption.map
        Host.dlopened =
      some ["/media/fat/linux/plugins/bad.so", "/media/fat/linux/plugins/n1.so",
        "/media/fat/linux/plugins/n2.so", "/media/fat/linux/plugins/n3.so",
        "/media/fat/linux/plugins/n4.so", "/media/fat/linux/plugins/n5.so",
        "/media/fat/linux/plugins/n6.so", "/media/fat/linux/plugins/n7.so"] :=
  have h := skip_failed_plugin "/media/fat" [] dir_eight.tail ⟨DT_REG, "bad.so"⟩ dl_nine
    dl_nine Host.initial (by decide) (by decide) (fun _ _ => rfl)
  ⟨by decide, by decide, h.2.1, h.2.2, by decide⟩

/-- C10: for every directory listing, the paths `load_plugins` passes to
`load_single_plugin` (and so to `dlopen`) are exactly those of the first `min(8, n)`
candidate files, in enumeration order, `n` being the number of candidates: at most 8
files are opened and the 9th candidate and every later one never is. On a well-formed
registry, with a plugin directory path that fits the buffer `dir_path` and plugins
returning arrays as long as their count says, `load_plugins` does return. -/
theorem plugin_cap (root : String) (entries : List dirent) (dl : String → PluginFile)
    (s : Host) :
    (∀ s', load_plugins root (some entries) dl s = Except.ok s' →
      s'.dlopened = s.dlopened ++ ((candidates entries).take 8).map
        (fun de => full_path (plugins_dir root) de.d_name) ∧
      s'.dlopened.length = s.dlopened.length + min 8 (candidates entries).length) ∧
    (s.Valid → root_fits root →
      (∀ de ∈ (candidates entries).take 8,
        (dl (full_path (plugins_dir root) de.d_name)).InBounds) →
      ∃ s', load_plugins root (some entries) dl s = Except.ok s') := by
  constructor
  · intro s' hs'
    have hfit := load_plugins_ok_fits _ _ _ _ _ hs'
    rw [load_plugins_eq_load_all _ _ _ _ hfit] at hs'
    have hfr := load_all_frame _ _ _ _ hs'
    refine ⟨hfr, ?_⟩
    rw [hfr]
    simp [List.length_take]
  · intro hv hfit hb
    rw [load_plugins_eq_load_all _ _ _ _ hfit]
    obtain ⟨s', h1, _⟩ := load_all_total dl
      (((candidates entries).take 8).map (fun de => full_path (plugins_dir root) de.d_name))
      { s with stderr := s.stderr ++ [Diag.loading_plugins] } hv
      (by
        intro p hp
        obtain ⟨de, hde, rfl⟩ := List.mem_map.mp hp
        exact hb de hde)
    exact ⟨s', h1⟩

/-- Witness of C10: `dir_nine` holds 9 plugin files; the first 8 are opened and
`z.so`, the 9th, is not. -/
theorem plugin_cap_witness :
    Host.initial.Valid ∧ root_fits "/media/fat" ∧
    (∀ de ∈ (candidates dir_nine).take 8,
      (dl_nine (full_path (plugins_dir "/media/fat") de.d_name)).InBounds) ∧
    (candidates dir_nine).length = 9 ∧
    (∃ s', load_plugins "/media/fat" (some dir_nine) dl_nine Host.initial = Except.ok s') ∧
    (∀ s', load_plugins "/media/fat" (some dir_nine) dl_nine Host.initial = Except.ok s' →
      s'.dlopened = Host.initial.dlopened ++ ((candidates dir_nine).take 8).map
        (fun de => full_path (plugins_dir "/media/fat") de.d_name) ∧
      s'.dlopened.length = Host.initial.dlopened.length + min 8 (candidates dir_nine).length) ∧
    (load_plugins "/media/fat" (some dir_nine) dl_nine Host.initial).toOption.map
        Host.dlopened =
      some ["/media/fat/linux/plugins/bad.so", "/media/fat/linux/plugins/n1.so",
        "/media/fat/linux/plugins/n2.so", "/media/fat/linux/plugins/n3.so",
        "/media/fat/linux/plugins/n4.so", "/media/fat/linux/plugins/n5.so",
        "/media/fat/linux/plugins/n6.so", "/media/fat/linux/plugins/n7.so"] :=
  have h := plugin_cap "/media/fat" dir_nine dl_nine Host.initial
  ⟨by decide, by decide, by decide, by decide, h.2 (by decide) (by decide) (by decide), h.1,
    by decide⟩

/-- C11: for every directory entry whose name holds no '/' (as every name `readdir`
returns), `load_plugins` treats it as a plugin candidate if and only if it is a regular
file, its name does not start with '.', and its name ends with the suffix ".so"
compared without regard to case. A candidate alone in a directory is passed to
`load_single_plugin`; any other entry is skipped. -/
theorem file_filter (de : dirent) (dl : String → PluginFile) (dir_path : String) (s : Host)
    (hname : '/' ∉ de.d_name.toList) :
    (de.candidate ↔
      (de.d_type = DT_REG ∧ de.d_name.toList.head? ≠ some '.' ∧ ends_with_so de.d_name)) ∧
    (de.candidate →
      load_plugins.scan dl dir_path [de] 0 s =
        load_single_plugin dl s (full_path dir_path de.d_name)) ∧
    (¬ de.candidate → load_plugins.scan dl dir_path [de] 0 s = Except.ok s) := by
  obtain ⟨h1, h2, h3⟩ := candidate_iff de dl dir_path s
  refine ⟨?_, h2, h3⟩
  rw [h1]
  constructor
  · rintro ⟨a, b, _, c⟩
    exact ⟨a, b, c⟩
  · rintro ⟨a, b, c⟩
    exact ⟨a, b, hname, c⟩

/-- Witness of C11: `A.SO` is a candidate (by the theorem) and so is `x.So`;
`.hidden.so`, `a.so.bak` and a directory named `d.so` are not. -/
theorem file_filter_witness :
    '/' ∉ (⟨DT_REG, "A.SO"⟩ : dirent).d_name.toList ∧
    (⟨DT_REG, "A.SO"⟩ : dirent).candidate ∧
    (⟨DT_REG, "x.So"⟩ : dirent).candidate ∧
    ¬ (⟨DT_REG, ".hidden.so"⟩ : dirent).candidate ∧
    ¬ (⟨DT_REG, "a.so.bak"⟩ : dirent).candidate ∧
    ¬ (⟨4, "d.so"⟩ : dirent).candidate :=
  ⟨by decide,
    (file_filter ⟨DT_REG, "A.SO"⟩ dl_eight "" Host.initial (by decide)).1.mpr
      ⟨rfl, by decide, ⟨"a".toList, by decide⟩⟩,
    by decide, by decide, by decide, by decide⟩

/-- C12: in a state whose entries 0 and 1 hold a count within their backing array,
`plugin_handle_mister_cmd` calls exactly `arr[0]`, ..., `arr[count - 1]` of point 0,
each once, in that order (the order of registration), each with the pointer `cmd` it
was given, and `plugin_test` does the same for point 1; with a count of zero no call is
made and the result is the normal return of 0. The invokers read the registry and have
no output but their calls and their return value. -/
theorem fan_out_invocation (s : Host) (cmd : Ptr) (e0 e1 : PluginHookData)
    (h0 : s.plugin_hooks[0]? = some e0) (h1 : s.plugin_hooks[1]? = some e1)
    (hb0 : e0.count.toNat ≤ e0.arr.length) (hb1 : e1.count.toNat ≤ e1.arr.length) :
    plugin_handle_mister_cmd s cmd =
      Except.ok ((e0.arr.take e0.count.toNat).map (fun f => (f, cmd)), e0.count) ∧
    plugin_test s =
      Except.ok ((e1.arr.take e1.count.toNat).map (fun f => (f, ())), e1.count) ∧
    ((e0.arr.take e0.count.toNat).length = e0.count.toNat ∧
      ∀ i : Nat, i < e0.count.toNat →
        ((e0.arr.take e0.count.toNat).map (fun f => (f, cmd)))[i]? =
          (e0.arr[i]?).map (fun f => (f, cmd))) ∧
    ((e1.arr.take e1.count.toNat).length = e1.count.toNat ∧
      ∀ i : Nat, i < e1.count.toNat →
        ((e1.arr.take e1.count.toNat).map (fun f => (f, ())))[i]? =
          (e1.arr[i]?).map (fun f => (f, ()))) ∧
    (e0.count = 0 → plugin_handle_mister_cmd s cmd = Except.ok ([], 0)) ∧
    (e1.count = 0 → plugin_test s = Except.ok ([], 0)) := by
  have r0 : plugin_handle_mister_cmd s cmd =
      Except.ok ((e0.arr.take e0.count.toNat).map (fun f => (f, cmd)), e0.count) :=
    invoker_calls 0 s cmd e0 h0 hb0
  have r1 : plugin_test s =
      Except.ok ((e1.arr.take e1.count.toNat).map (fun f => (f, ())), e1.count) :=
    invoker_calls 1 s () e1 h1 hb1
  refine ⟨r0, r1, ⟨?_, ?_⟩, ⟨?_, ?_⟩, ?_, ?_⟩
  · rw [List.length_take]; omega
  · intro i hi
    rw [List.getElem?_map, List.getElem?_take_of_lt hi]
  · rw [List.length_take]; omega
  · intro i hi
    rw [List.getElem?_map, List.getElem?_take_of_lt hi]
  · intro hz; rw [r0, hz]; rfl
  · intro hz; rw [r1, hz]; rfl

/-- Witness of C12: in `state_example` point 0 holds 5 callbacks and point 1 holds 1;
in `Host.initial` both invokers make no call. -/
theorem fan_out_invocation_witness :
    state_example.plugin_hooks[0]? = some
      { name := some "plugin_handle_mister_cmd", count := 5, arr := [10, 11, 12, 13, 14],
        limit := 5 } ∧
    state_example.plugin_hooks[1]? = some
      { name := some "plugin_test", count := 1, arr := [21], limit := 1 } ∧
    plugin_handle_mister_cmd state_example 500 =
      Except.ok ([(10, 500), (11, 500), (12, 500), (13, 500), (14, 500)], 5) ∧
    plugin_test state_example = Except.ok ([(21, ())], 1) ∧
    plugin_handle_mister_cmd Host.initial 500 = Except.ok ([], 0) ∧
    plugin_test Host.initial = Except.ok ([], 0) :=
  have h := fan_out_invocation state_example 500
    { name := some "plugin_handle_mister_cmd", count := 5, arr := [10, 11, 12, 13, 14],
      limit := 5 }
    { name := some "plugin_test", count := 1, arr := [21], limit := 1 }
    (by decide) (by decide) (by decide) (by decide)
  have g := fan_out_invocation Host.initial 500
    { name := some "plugin_handle_mister_cmd", count := 0, arr := [0, 0, 0, 0, 0], limit := 5 }
    { name := some "plugin_test", count := 0, arr := [0], limit := 1 }
    (by decide) (by decide) (by decide) (by decide)
  ⟨by decide, by decide, h.1, h.2.1, g.2.2.2.2.1 rfl, g.2.2.2.2.2 rfl⟩

/-- C13: for every state and every call of `load_hook`, `load_single_plugin` or
`load_plugins` that returns (whatever the hook, the plugins and the directory are),
the table keeps its size and each extension point keeps its name and limit, has its
previous callback list as the first part of its new callback list (nothing removed,
overwritten or reordered), and has a count that did not decrease. -/
theorem append_only (op : Op) (s s' : Host) (h : op.run s = Except.ok s') :
    s'.plugin_hooks.length = s.plugin_hooks.length ∧
    ∀ (j : Nat) (e : PluginHookData), s.plugin_hooks[j]? = some e →
      ∃ (e' : PluginHookData) (more : List Ptr), s'.plugin_hooks[j]? = some e' ∧
        e'.callbacks = e.callbacks ++ more ∧ e.count ≤ e'.count ∧
        e'.name = e.name ∧ e'.limit = e.limit := by
  cases op with
  | hook hk => simp only [Op.run] at h; exact load_hook_grows _ _ _ h
  | single dl path => simp only [Op.run] at h; exact load_single_plugin_grows _ _ _ _ h
  | plugins root d dl => simp only [Op.run] at h; exact load_plugins_grows _ _ _ _ _ h

/-- Witness of C13: registering `hook_example` in the initial registry gives
`state_one`. -/
theorem append_only_witness :
    Op.run Host.initial (Op.hook hook_example) = Except.ok state_one ∧
    state_one.plugin_hooks.length = Host.initial.plugin_hooks.length ∧
    ∀ (j : Nat) (e : PluginHookData), Host.initial.plugin_hooks[j]? = some e →
      ∃ (e' : PluginHookData) (more : List Ptr), state_one.plugin_hooks[j]? = some e' ∧
        e'.callbacks = e.callbacks ++ more ∧ e.count ≤ e'.count ∧
        e'.name = e.name ∧ e'.limit = e.limit :=
  ⟨by decide, append_only (Op.hook hook_example) Host.initial state_one (by decide)⟩

/-- C14: for every state, directory listing and plugin behaviour (whatever a plugin
leaves in `*api`), the `FirmwareAPI` values `load_plugins` hands to `describe_hooks`,
one per exporting file among the first 8 candidates, are all the same value: version
`PLUGIN_API_VERSION = 1` and the ten `firm_api_*` bindings. -/
theorem uniform_api (root : String) (entries : List dirent) (dl : String → PluginFile)
    (s s' : Host) (h : load_plugins root (some entries) dl s = Except.ok s') :
    s'.api_given = s.api_given ++ List.replicate (entry_calls root entries dl)
      { version := 1,
        scheduler_yield := FnPtr.firm_api_scheduler_yield,
        OsdSetTitle := FnPtr.firm_api_OsdSetTitle,
        OsdClear := FnPtr.firm_api_OsdClear,
        OsdEnable := FnPtr.firm_api_OsdEnable,
        OsdGetSize := FnPtr.firm_api_OsdGetSize,
        OsdWrite := FnPtr.firm_api_OsdWrite,
        OsdUpdate := FnPtr.firm_api_OsdUpdate,
        SelectFile := FnPtr.firm_api_SelectFile,
        FileCreatePath := FnPtr.firm_api_FileCreatePath,
        MakeFile := FnPtr.firm_api_MakeFile } ∧
    entry_calls root entries dl ≤ 8 ∧ PLUGIN_API_VERSION = 1 := by
  rw [load_plugins_eq_load_all _ _ _ _ (load_plugins_ok_fits _ _ _ _ _ h)] at h
  have ha := load_all_api _ _ _ _ h
  refine ⟨ha, ?_, rfl⟩
  unfold entry_calls
  refine le_trans (List.length_filter_le _ _) ?_
  rw [List.length_map, List.length_take]
  omega

/-- Witness of C14: the first plugin of `dir_two` writes version 99 through the
pointer; the second one is still given version 1 and the host bindings. -/
theorem uniform_api_witness :
    load_plugins "/media/fat" (some dir_two) dl_writer Host.initial =
      Except.ok state_writer ∧
    (describe_writer {}).api_after.version = 99 ∧
    entry_calls "/media/fat" dir_two dl_writer = 2 ∧
    state_writer.api_given = Host.initial.api_given ++
      List.replicate (entry_calls "/media/fat" dir_two dl_writer)
        { version := 1,
          scheduler_yield := FnPtr.firm_api_scheduler_yield,
          OsdSetTitle := FnPtr.firm_api_OsdSetTitle,
          OsdClear := FnPtr.firm_api_OsdClear,
          OsdEnable := FnPtr.firm_api_OsdEnable,
          OsdGetSize := FnPtr.firm_api_OsdGetSize,
          OsdWrite := FnPtr.firm_api_OsdWrite,
          OsdUpdate := FnPtr.firm_api_OsdUpdate,
          SelectFile := FnPtr.firm_api_SelectFile,
          FileCreatePath := FnPtr.firm_api_FileCreatePath,
          MakeFile := FnPtr.firm_api_MakeFile } :=
  ⟨by decide, by decide, by decide,
    (uniform_api "/media/fat" dir_two dl_writer Host.initial state_writer (by decide)).1⟩

/-- C15: on a well-formed registry (`0 ≤ count ≤ limit`, backing arrays of `limit`
slots), whatever `describe_hooks` returns (any count, any ids), `load_single_plugin`
never reads `plugin_hooks[id]` outside the table and never writes `arr[count]` outside
a backing array: every hook it passes to `load_hook` has `0 ≤ id < 64`, each such
`load_hook` call returns, and the only fault left is a read past the end of the
plugin's own array; when that array is as long as its count says, `load_single_plugin`
returns and the registry is again well formed. -/
theorem bounds_safety (dl : String → PluginFile) (s : Host) (path : String) (hv : s.Valid) :
    load_single_plugin dl s path ≠ Except.error Fault.table_oob ∧
    load_single_plugin dl s path ≠ Except.error Fault.arr_oob ∧
    (∀ h ∈ (dl path).offers, 0 ≤ h.id ∧ h.id < 64) ∧
    (∀ hook : HookPair, 0 ≤ hook.id ∧ hook.id < 64 →
      ∃ s', load_hook s hook = Except.ok s' ∧ s'.Valid) ∧
    ((dl path).InBounds → ∃ s', load_single_plugin dl s path = Except.ok s' ∧ s'.Valid) := by
  obtain ⟨t', k1, k2, _⟩ := register_all_valid (dl path).offers s.plugin_hooks hv
    (offers_in_range _)
  have ht := load_single_plugin_table dl s path
  rw [file_table_eq, k1] at ht
  dsimp only at ht
  refine ⟨?_, ?_, ?_, ?_, ?_⟩
  · intro hc
    rw [hc] at ht
    simp only [table] at ht
    split at ht <;> cases ht
  · intro hc
    rw [hc] at ht
    simp only [table] at ht
    split at ht <;> cases ht
  · intro h hh
    have := offers_in_range _ h hh
    simpa [HookPair.in_range, MAX_PLUGIN_HOOKS] using this
  · intro hook hid
    obtain ⟨e, s', _, g2, g3, _, _⟩ := load_hook_table_of_valid s hook hv hid
    obtain ⟨e2, a1, _, a3⟩ := hook_table_valid s.plugin_hooks hook hv
      (by simpa [HookPair.in_range, MAX_PLUGIN_HOOKS] using hid)
    refine ⟨s', g2, ?_⟩
    have he : e2 = e := by
      have h1 : s.plugin_hooks[hook.id.toNat]? = some e := by assumption
      rw [a1] at h1; exact Option.some.inj h1
    unfold Host.Valid
    rw [g3, ← he]
    exact a3
  · intro hb
    rw [if_pos hb] at ht
    cases hl : load_single_plugin dl s path with
    | error f => rw [hl] at ht; cases ht
    | ok s' =>
      rw [hl] at ht
      simp only [table, Except.ok.injEq] at ht
      refine ⟨s', rfl, ?_⟩
      unfold Host.Valid; rw [ht]; exact k2

/-- Witness of C15: the plugin `describe_two` (ids 0 and 99) on the initial registry. -/
theorem bounds_safety_witness :
    Host.initial.Valid ∧
    load_single_plugin dl_two Host.initial "a.so" ≠ Except.error Fault.table_oob ∧
    load_single_plugin dl_two Host.initial "a.so" ≠ Except.error Fault.arr_oob ∧
    (dl_two "a.so").offers = [⟨0, 7⟩] ∧
    ∃ s', load_single_plugin dl_two Host.initial "a.so" = Except.ok s' ∧ s'.Valid :=
  have h := bounds_safety dl_two Host.initial "a.so" (by decide)
  ⟨by decide, h.1, h.2.1, by decide, h.2.2.2.2 (by decide)⟩

/-- C16: in every state reached from the initial registry, each generated invoker
returns the number of callbacks it called, which is the count of its extension point;
the value lies in `[0, 5]` for `plugin_handle_mister_cmd` and in `[0, 1]` for
`plugin_test`, and it is 0 exactly when no callback is registered at the point. -/
theorem invoker_return (ops : List Op) (s : Host) (cmd : Ptr)
    (h : run_ops Host.initial ops = Except.ok s) :
    (∃ (e : PluginHookData) (made : List (Ptr × Ptr)) (n : Int),
      s.plugin_hooks[0]? = some e ∧ plugin_handle_mister_cmd s cmd = Except.ok (made, n) ∧
      n = made.length ∧ n = e.count ∧ 0 ≤ n ∧ n ≤ 5 ∧ (n = 0 ↔ e.callbacks = [])) ∧
    (∃ (e : PluginHookData) (made : List (Ptr × Unit)) (n : Int),
      s.plugin_hooks[1]? = some e ∧ plugin_test s = Except.ok (made, n) ∧
      n = made.length ∧ n = e.count ∧ 0 ≤ n ∧ n ≤ 1 ∧ (n = 0 ↔ e.callbacks = [])) := by
  have hi := run_ops_inv ops Host.initial s inv_initial h
  obtain ⟨⟨e0, a1, a2, a3, a4, a5⟩, ⟨e1, b1, b2, b3, b4, b5⟩, _⟩ := inv_points _ hi
  have hv0 := hi.1.2 e0 (List.getElem?_mem a1) (by rw [a2]; simp)
  have hv1 := hi.1.2 e1 (List.getElem?_mem b1) (by rw [b2]; simp)
  have hl0 := callbacks_length e0 a4 (by omega)
  have hl1 := callbacks_length e1 b4 (by omega)
  constructor
  · refine ⟨e0, e0.callbacks.map (fun f => (f, cmd)), e0.count, a1,
      invoker_calls 0 s cmd e0 a1 (by omega), ?_, rfl, a4, a5, ?_⟩
    · rw [List.length_map, hl0]
    · rw [← hl0]
      constructor
      · intro hz; exact List.length_eq_zero.mp (by omega)
      · intro hz; rw [hz]; rfl
  · refine ⟨e1, e1.callbacks.map (fun f => (f, ())), e1.count, b1,
      invoker_calls 1 s () e1 b1 (by omega), ?_, rfl, b4, b5, ?_⟩
    · rw [List.length_map, hl1]
    · rw [← hl1]
      constructor
      · intro hz; exact List.length_eq_zero.mp (by omega)
      · intro hz; rw [hz]; rfl

/-- Witness of C16: in `state_example`, reached by `ops_example`, the invokers return
5 and 1. -/
theorem invoker_return_witness :
    run_ops Host.initial ops_example = Except.ok state_example ∧
    plugin_handle_mister_cmd state_example 500 =
      Except.ok ([(10, 500), (11, 500), (12, 500), (13, 500), (14, 500)], 5) ∧
    plugin_test state_example = Except.ok ([(21, ())], 1) ∧
    ((∃ (e : PluginHookData) (made : List (Ptr × Ptr)) (n : Int),
      state_example.plugin_hooks[0]? = some e ∧
      plugin_handle_mister_cmd state_example 500 = Except.ok (made, n) ∧
      n = made.length ∧ n = e.count ∧ 0 ≤ n ∧ n ≤ 5 ∧ (n = 0 ↔ e.callbacks = [])) ∧
    (∃ (e : PluginHookData) (made : List (Ptr × Unit)) (n : Int),
      state_example.plugin_hooks[1]? = some e ∧
      plugin_test state_example = Except.ok (made, n) ∧
      n = made.length ∧ n = e.count ∧ 0 ≤ n ∧ n ≤ 1 ∧ (n = 0 ↔ e.callbacks = []))) :=
  ⟨by decide, by decide, by decide,
    invoker_return ops_example state_example 500 (by decide)⟩

/-- C17: the static registrars turn the zeroed table into one of 64 entries in which
entry 0 is `plugin_handle_mister_cmd` with limit 5 and count 0, entry 1 is
`plugin_test` with limit 1 and count 0, and every entry from 2 to 63 has a null name;
and in the initial state, as in every state reached from it, `load_hook` drops any
hook with an id from 2 to 63 and leaves the table as it was. -/
theorem static_registration :
    static_init = Except.ok Host.initial.plugin_hooks ∧
    Host.initial.plugin_hooks.length = 64 ∧
    Host.initial.plugin_hooks[0]? = some
      { name := some "plugin_handle_mister_cmd", count := 0, arr := [0, 0, 0, 0, 0],
        limit := 5 } ∧
    Host.initial.plugin_hooks[1]? = some
      { name := some "plugin_test", count := 0, arr := [0], limit := 1 } ∧
    (∀ j : Nat, j < 64 → 2 ≤ j →
      (Host.initial.plugin_hooks[j]?).map PluginHookData.name = some none) ∧
    (∀ (ops : List Op) (s : Host), run_ops Host.initial ops = Except.ok s →
      ∀ hook : HookPair, 2 ≤ hook.id → hook.id ≤ 63 →
        ∃ s', load_hook s hook = Except.ok s' ∧ s'.plugin_hooks = s.plugin_hooks) := by
  refine ⟨by decide, by decide, by decide, by decide, by decide, ?_⟩
  intro ops s h hook h2 h63
  have hi := run_ops_inv ops Host.initial s inv_initial h
  obtain ⟨_, _, hdecl⟩ := inv_points _ hi
  obtain ⟨s', g1, g2, _, _⟩ := load_hook_dropped s hook hi.1.1 ⟨by omega, by omega⟩
    (by
      intro e he
      left
      by_contra hn
      rcases hdecl _ e he hn with hj | hj <;> omega)
  exact ⟨s', g1, g2⟩

/-- Witness of C17: a hook for id 2 offered to `state_example`, reached by
`ops_example`, is dropped. -/
theorem static_registration_witness :
    run_ops Host.initial ops_example = Except.ok state_example ∧
    ∃ s', load_hook state_example { id := 2, ptr := 7 } = Except.ok s' ∧
      s'.plugin_hooks = state_example.plugin_hooks :=
  ⟨by decide,
    static_registration.2.2.2.2.2 ops_example state_example (by decide)
      { id := 2, ptr := 7 } (by decide) (by decide)⟩

end Plugin
